import Mathlib

/-!
Verification of the GoE2E-DocSyncer core against its specification.

The development shallowly embeds the Go source of the repository:
strings are Lean `String`s, the `strings` / `strconv` / `path/filepath`
standard-library functions used by the code are reimplemented below as
executable Lean functions over `List Char` (Go indexes bytes; all string
constants manipulated by the code are ASCII, for which byte positions and
character positions coincide, and slicing at a match boundary cuts at the
same place in either view).

Embedded components:
* `internal/converter/command.go` — command classification and Go-code
  synthesis (`GenerateGoCode`, `isComplexCommand`, `shellSplit`,
  `generateSimpleCommand`, `generateShellCommand`, `wrapWithTimeout`,
  `wrapWithExpectedExit`, `wrapWithRetry`, `formatDuration`).
* `internal/converter/converter.go` — document conversion
  (`Convert`, `blockToStep`, `resolveAttribute`, `autoStepName`,
  `inferDescribeBlock`, `inferContextBlock`, `ValidateCommand`).
* `internal/parser/markdown.go` and `internal/parser/asciidoc.go` — the
  two marker-state extractors.
-/

namespace DocSyncer

/-! ## Go standard-library string primitives -/

/-- Character-level test that `p` is a prefix of `s`. -/
def charsStartsWith : List Char → List Char → Bool
  | _, [] => true
  | [], _ :: _ => false
  | c :: s, d :: p => c == d && charsStartsWith s p

/-- The scan of `strings.Index`, carrying the index `i` of the current
scan position. -/
def charsFindSubFrom : List Char → List Char → Nat → Option Nat
  | s, p, i =>
    if charsStartsWith s p then some i
    else
      match s with
      | [] => none
      | _ :: s' => charsFindSubFrom s' p (i + 1)

/-- `strings.Index`: first index at which pattern `p` occurs in `s`,
`none` when it does not occur (Go returns `-1`). -/
def charsFindSub (s p : List Char) : Option Nat :=
  charsFindSubFrom s p 0

/-- `strings.Contains`. -/
def charsContainsSub (s p : List Char) : Bool :=
  (charsFindSub s p).isSome

/-- `strings.Replace(s, old, new, 1)`: replace the first occurrence. -/
def charsReplaceFirst (s old new : List Char) : List Char :=
  match charsFindSub s old with
  | none => s
  | some i => s.take i ++ new ++ s.drop (i + old.length)

/-- `strings.Replace(s, old, new, -1)` for a nonempty pattern: replace all
(left-to-right, non-overlapping) occurrences.  The fuel argument only
forces termination; it is always sufficient for nonempty `old`. -/
def charsReplaceAllGo : Nat → List Char → List Char → List Char → List Char
  | 0, s, _, _ => s
  | fuel + 1, s, old, new =>
    match charsFindSub s old with
    | none => s
    | some i =>
        s.take i ++ new ++ charsReplaceAllGo fuel (s.drop (i + old.length)) old new

/-- Number of (left-to-right, non-overlapping) occurrences of a nonempty
pattern, as `strings.Count` computes it. -/
def charsCountSub : Nat → List Char → List Char → Nat
  | 0, _, _ => 0
  | fuel + 1, s, p =>
    match charsFindSub s p with
    | none => 0
    | some i => 1 + charsCountSub fuel (s.drop (i + p.length)) p

/-- ASCII whitespace, the characters `strings.TrimSpace` removes on the
ASCII inputs this code base deals in. -/
def isGoSpace (c : Char) : Bool :=
  c == ' ' || c == '\t' || c == '\n' || c == '\r' || c == '\x0b' || c == '\x0c'

/-- `strings.TrimSpace` (ASCII range). -/
def goTrimSpace (s : String) : String :=
  ⟨(s.data.dropWhile isGoSpace).reverse.dropWhile isGoSpace |>.reverse⟩

/-- `strings.HasPrefix`. -/
def goStartsWith (s pre : String) : Bool :=
  charsStartsWith s.data pre.data

/-- `strings.HasSuffix`. -/
def goEndsWith (s suf : String) : Bool :=
  charsStartsWith s.data.reverse suf.data.reverse

/-- `strings.TrimPrefix`: drop `pre` when it is a prefix, else return `s`. -/
def goRemoveStart (s pre : String) : String :=
  if goStartsWith s pre then ⟨s.data.drop pre.data.length⟩ else s

/-- `strings.TrimSuffix`: drop `suf` when it is a suffix, else return `s`. -/
def goRemoveEnd (s suf : String) : String :=
  if goEndsWith s suf then ⟨s.data.take (s.data.length - suf.data.length)⟩ else s

/-- `strings.Trim(s, cutset)`: remove leading and trailing characters
belonging to `cutset`. -/
def goTrimAnyEnds (s : String) (cutset : List Char) : String :=
  ⟨(s.data.dropWhile (cutset.contains ·)).reverse.dropWhile (cutset.contains ·) |>.reverse⟩

/-- `strings.Contains`. -/
def goContains (s sub : String) : Bool :=
  charsContainsSub s.data sub.data

/-- `strings.Index` as an optional index. -/
def goIndexOf (s sub : String) : Option Nat :=
  charsFindSub s.data sub.data

/-- `strings.Replace(s, old, new, 1)`. -/
def goReplaceFirst (s old new : String) : String :=
  ⟨charsReplaceFirst s.data old.data new.data⟩

/-- `strings.Replace(s, old, new, -1)` (nonempty `old`). -/
def goReplaceAll (s old new : String) : String :=
  ⟨charsReplaceAllGo (s.data.length + 1) s.data old.data new.data⟩

/-- `strings.Count` for a nonempty pattern. -/
def goCountSub (s sub : String) : Nat :=
  charsCountSub (s.data.length + 1) s.data sub.data

/-- Split on a single separator character; `strings.Split(s, sep)` for a
one-character separator.  Always returns at least one part. -/
def charsSplitOn (sep : Char) : List Char → List (List Char)
  | [] => [[]]
  | c :: rest =>
    let parts := charsSplitOn sep rest
    if c == sep then [] :: parts
    else
      match parts with
      | [] => [[c]]
      | p :: ps => (c :: p) :: ps

/-- `strings.Split` with a one-character separator. -/
def goSplitChar (s : String) (sep : Char) : List String :=
  (charsSplitOn sep s.data).map (⟨·⟩)

/-- `strings.Join`. -/
def goJoinStr (parts : List String) (sep : String) : String :=
  match parts with
  | [] => ""
  | p :: ps => ps.foldl (fun acc q => acc ++ sep ++ q) p

/-- Split at every character satisfying `p` (keeping empty pieces);
`strings.Fields` is this with the empty pieces dropped. -/
def charsSplitPred (p : Char → Bool) : List Char → List (List Char)
  | [] => [[]]
  | c :: rest =>
    let parts := charsSplitPred p rest
    if p c then [] :: parts
    else
      match parts with
      | [] => [[c]]
      | q :: ps => (c :: q) :: ps

/-- `strings.Fields`: split around runs of whitespace. -/
def goFields (s : String) : List String :=
  ((charsSplitPred isGoSpace s.data).filter (· ≠ [])).map (⟨·⟩)

/-- `strconv.Atoi`: an optional sign followed by at least one decimal
digit, and nothing else (overflow ignored; inputs here are small). -/
def goAtoi (s : String) : Option Int :=
  let chars := s.data
  let (neg, digits) :=
    match chars with
    | '-' :: rest => (true, rest)
    | '+' :: rest => (false, rest)
    | rest => (false, rest)
  if digits = [] then none
  else if digits.all (·.isDigit) then
    let n : Nat := digits.foldl (fun acc c => acc * 10 + (c.toNat - 48)) 0
    some (if neg then -(n : Int) else (n : Int))
  else none

/-- `%q` of `fmt.Sprintf` / `strconv.Quote`, restricted to the escapes
that can arise from the inputs considered here: backslash, double quote,
newline, tab and carriage return.  Other characters print verbatim. -/
def goQuote (s : String) : String :=
  ⟨'"' :: (s.data.flatMap fun c =>
    if c == '\\' then ['\\', '\\']
    else if c == '"' then ['\\', '"']
    else if c == '\n' then ['\\', 'n']
    else if c == '\t' then ['\\', 't']
    else if c == '\r' then ['\\', 'r']
    else [c]) ++ ['"']⟩

/-- Brace balance of a Go fragment, ignoring braces inside double-quoted
string literals (with `\"` escapes).  `depth` is the running count of
open braces; the fragment is balanced when the scan ends at depth 0. -/
def goBraceScan : List Char → Nat → Bool → Bool → Option Nat
  | [], depth, inStr, _ => if inStr then none else some depth
  | c :: rest, depth, inStr, esc =>
    if inStr then
      if esc then goBraceScan rest depth true false
      else if c == '\\' then goBraceScan rest depth true true
      else if c == '"' then goBraceScan rest depth false false
      else goBraceScan rest depth true false
    else
      if c == '"' then goBraceScan rest depth true false
      else if c == '\x7b' then goBraceScan rest (depth + 1) false false
      else if c == '\x7d' then
        match depth with
        | 0 => none
        | d + 1 => goBraceScan rest d false false
      else goBraceScan rest depth false false

/-- A fragment is brace-balanced when every closing brace matches an open
one and the scan ends outside a string literal at depth 0. -/
def goBraceBalanced (s : String) : Bool :=
  goBraceScan s.data 0 false false == some 0

/-! ## `internal/config` — the slice of configuration the converter reads -/

/-- `config.CommandConfig` (the fields `internal/converter` reads). -/
structure CommandConfig where
  Shell : String
  ShellFlag : String
  DefaultTimeout : String
  DefaultExpectedExitCode : Int
  BlockedPatterns : List String
deriving Repr, DecidableEq

/-- `config.TagConfig.Attributes`: the alias table, a map from logical
attribute name to the ordered list of accepted keys (Go
`map[string][]string`, modelled as an association list). -/
structure TagConfig where
  Attributes : List (String × List String)
deriving Repr, DecidableEq

/-- Go map lookup on an association list (keys are unique by
construction: insertion overwrites). -/
def assocLookup (m : List (String × String)) (key : String) : Option String :=
  (m.find? (fun kv => kv.1 == key)).map (·.2)

/-- Go map insertion: overwrite the existing binding or append. -/
def assocInsert (m : List (String × String)) (key val : String) : List (String × String) :=
  if m.any (fun kv => kv.1 == key) then
    m.map (fun kv => if kv.1 == key then (key, val) else kv)
  else m ++ [(key, val)]

/-- Lookup in the alias table (`tagCfg.Attributes["step_name"]` etc.);
a missing entry is Go's `nil` slice, modelled as `[]`. -/
def aliasKeys (t : TagConfig) (logical : String) : List String :=
  ((t.Attributes.find? (fun kv => kv.1 == logical)).map (·.2)).getD []

/-! ## `internal/converter/command.go` — classification and synthesis

Embeds the first (retry-aware) version of the file; the older version of
`GenerateGoCode` kept alongside it in the source (no retry parameters,
timeout wrapped before the exit-code rewrite) is embedded as
`GenerateGoCodeLegacy`, since `converter.go`'s `blockToStep` still calls
that four-argument form. -/

/-- The fixed metacharacter set of `isComplexCommand`. -/
def complexChars : List String :=
  ["|", "&&", "||", ";", ">", "<", ">>", "$(", "`", "&"]

/-- `isComplexCommand`: a command needs shell execution when its text
contains any member of `complexChars`. -/
def isComplexCommand (cmd : String) : Bool :=
  complexChars.any (fun c => goContains cmd c)

/-- The double-quote character. -/
def dquoteChar : Char := Char.ofNat 34

/-- The single-quote character. -/
def squoteChar : Char := Char.ofNat 39

/-- The state-machine loop of `shellSplit`: `parts` and `current`
accumulate the emitted tokens and the token being built; `inQuote` /
`quoteChar` mirror the two mutable flags. -/
def shellSplitAux : List Char → List (List Char) → List Char → Bool → Char → List (List Char)
  | [], parts, current, _, _ =>
      if current ≠ [] then parts ++ [current] else parts
  | c :: rest, parts, current, inQuote, quoteChar =>
      if inQuote then
        if c == quoteChar then shellSplitAux rest parts current false quoteChar
        else shellSplitAux rest parts (current ++ [c]) true quoteChar
      else
        if c == dquoteChar || c == squoteChar then
          shellSplitAux rest parts current true c
        else if c == ' ' || c == '\t' then
          if current ≠ [] then shellSplitAux rest (parts ++ [current]) [] false quoteChar
          else shellSplitAux rest parts current false quoteChar
        else shellSplitAux rest parts (current ++ [c]) false quoteChar

/-- `shellSplit`: split a command into arguments, respecting single and
double quotes (which are stripped from the tokens). -/
def shellSplit (s : String) : List String :=
  (shellSplitAux s.data [] [] false (Char.ofNat 0)).map (⟨·⟩)

/-- The common scaffold tail shared by the two `exec.Command`
generators: capture combined output and assert no error occurred. -/
def scaffoldTail : String :=
  ")\n\t\t\toutput, err := cmd.CombinedOutput()\n\t\t\tExpect(err).ToNot(HaveOccurred(), string(output))"

/-- `generateSimpleCommand`: tokenize and invoke directly. -/
def generateSimpleCommand (command : String) : String :=
  let parts := shellSplit command
  match parts with
  | [] => ""
  | [p] => "cmd := exec.Command(" ++ goQuote p ++ scaffoldTail
  | _ =>
    let args := parts.map goQuote
    "cmd := exec.Command(" ++ goJoinStr args ", " ++ scaffoldTail

/-- `generateShellCommand`: shell path, shell flag, and the whole command
string as a single argument. -/
def generateShellCommand (command shell shellFlag : String) : String :=
  "cmd := exec.Command(" ++ goQuote shell ++ ", " ++ goQuote shellFlag ++ ", "
    ++ goQuote command ++ scaffoldTail

/-- The deadline-scope prologue of `wrapWithTimeout`'s template: parse
the duration, establish the cancellable context before the
invocation. -/
def timeoutPrologue (timeout : String) : String :=
  "dur, err := time.ParseDuration(" ++ goQuote timeout
    ++ ")\n\t\t\tExpect(err).ToNot(HaveOccurred())\n\t\t\tctx, cancel := context.WithTimeout(context.Background(), dur)\n\t\t\tdefer cancel()\n\t\t\t"

/-- `wrapWithTimeout`: prepend the cancellable deadline scope and switch
the invocation to its context-aware form. -/
def wrapWithTimeout (goCode timeout : String) : String :=
  timeoutPrologue timeout
    ++ goReplaceFirst goCode "exec.Command(" "exec.CommandContext(ctx, "

/-- The generic no-error assertion emitted by the base scaffold. -/
def plainAssert : String :=
  "Expect(err).ToNot(HaveOccurred(), string(output))"

/-- `wrapWithExpectedExit`: rewrite the no-error assertion into an
exit-code conditional. -/
def wrapWithExpectedExit (goCode : String) (expectedExit : Int) : String :=
  goReplaceFirst goCode plainAssert
    ("if exitErr, ok := err.(*exec.ExitError); ok \x7b\n\t\t\t\tExpect(exitErr.ExitCode()).To(Equal("
      ++ toString expectedExit
      ++ "), string(output))\n\t\t\t\x7d else \x7b\n\t\t\t\tExpect(err).ToNot(HaveOccurred(), string(output))\n\t\t\t\x7d")

/-- `formatDuration`: turn `"5s"`-style literals into Go duration
expressions, deferring anything unrecognized to a runtime parse. -/
def formatDuration (d : String) : String :=
  let d := goTrimSpace d
  if goEndsWith d "ms" then goRemoveEnd d "ms" ++ " * time.Millisecond"
  else if goEndsWith d "s" then goRemoveEnd d "s" ++ " * time.Second"
  else if goEndsWith d "m" then goRemoveEnd d "m" ++ " * time.Minute"
  else "func() time.Duration \x7b d, _ := time.ParseDuration(" ++ goQuote d ++ "); return d \x7d()"

/-- The `fmt.Sprintf` template of `wrapWithRetry`'s returns (both its
return statements instantiate this same literal, the second with the
post-loop slot filled by the rewritten generic assertion): a loop of
`total` attempts around `body`, early exit on success, a sleep guarded
by `attempt <= retries`, and `post` emitted once after the loop. -/
def retryLoopShape (total retries : Int) (sleepExpr body post : String) : String :=
  "\x7b\n\t\t\tvar lastOutput []byte\n\t\t\tvar lastErr error\n\t\t\tfor attempt := 1; attempt <= "
    ++ toString total ++ "; attempt++ \x7b\n\t\t\t\t"
    ++ body
    ++ "\n\t\t\t\tif lastErr == nil \x7b\n\t\t\t\t\tbreak\n\t\t\t\t\x7d\n\t\t\t\tif attempt <= "
    ++ toString retries ++ " \x7b\n\t\t\t\t\ttime.Sleep("
    ++ sleepExpr
    ++ ")\n\t\t\t\t\x7d\n\t\t\t\x7d\n\t\t\t"
    ++ post ++ "\n\t\t\x7d"

/-- The fixed post-loop assertion of `wrapWithRetry`'s standard (no
expected-exit) return. -/
def retryPlainAssert : String :=
  "Expect(lastErr).ToNot(HaveOccurred(), string(lastOutput))"

/-- `wrapWithRetry`: wrap the scaffold in a loop of `retryCount + 1`
total attempts; Go's single mutable `retryCode` is threaded through as
`rc1 … rc5`. -/
def wrapWithRetry (goCode : String) (retryCount : Int) (retryInterval : String) : String :=
  let totalAttempts := retryCount + 1
  let rc1 := goReplaceFirst goCode "output, err := cmd.CombinedOutput()" "lastOutput, lastErr = cmd.CombinedOutput()"
  let rc2 := goReplaceFirst rc1 "Expect(err).ToNot(HaveOccurred(), string(output))" ""
  let rc3 := goReplaceFirst rc2 "Expect(err).ToNot(HaveOccurred(), string(lastOutput))" ""
  let hasExitCheck := goContains goCode "exitErr, ok := err.(*exec.ExitError)"
  if hasExitCheck then
    let rc4 := goReplaceFirst rc3 "if exitErr, ok := err.(*exec.ExitError); ok \x7b" "if exitErr, ok := lastErr.(*exec.ExitError); ok \x7b"
    let rc5 := goReplaceAll rc4 "string(output)" "string(lastOutput)"
    match goIndexOf rc5 "if exitErr, ok := lastErr.(*exec.ExitError)" with
    | some exitCheckStart =>
        let exitBlock : String := ⟨rc5.data.drop exitCheckStart⟩
        let beforeExit : String := ⟨rc5.data.take exitCheckStart⟩
        retryLoopShape totalAttempts retryCount (formatDuration retryInterval)
          (goTrimSpace beforeExit) (goTrimSpace exitBlock)
    | none =>
        retryLoopShape totalAttempts retryCount (formatDuration retryInterval)
          (goTrimSpace rc5) retryPlainAssert
  else
    retryLoopShape totalAttempts retryCount (formatDuration retryInterval)
      (goTrimSpace rc3) retryPlainAssert

/-- The multi-line collapse at the top of `GenerateGoCode`: when the
trimmed command spans several lines, join the non-blank trimmed lines
with the logical-AND connective. -/
def joinCommandLines (command : String) : String :=
  let command := goTrimSpace command
  let lines := goSplitChar command '\n'
  if lines.length > 1 then
    goJoinStr ((lines.map goTrimSpace).filter (· ≠ "")) " && "
  else command

/-- `GenerateGoCode` (retry-aware version): classify, then compose the
wrappers in the fixed order base → exit-code → retry → timeout. -/
def GenerateGoCode (command : String) (expectedExit : Int) (timeout : String)
    (retryCount : Int) (retryInterval : String) (cmdCfg : CommandConfig) : String :=
  let command := joinCommandLines command
  let goCode :=
    if isComplexCommand command then
      generateShellCommand command cmdCfg.Shell cmdCfg.ShellFlag
    else generateSimpleCommand command
  let goCode := if expectedExit ≠ 0 then wrapWithExpectedExit goCode expectedExit else goCode
  let goCode := if retryCount > 0 then wrapWithRetry goCode retryCount retryInterval else goCode
  if timeout ≠ "" ∧ timeout ≠ "0" ∧ timeout ≠ "0s" then wrapWithTimeout goCode timeout
  else goCode

/-- The older four-argument `GenerateGoCode` kept in the source next to
the retry-aware one (no retry stage; timeout wrapped before the
exit-code rewrite); still the form `blockToStep` invokes. -/
def GenerateGoCodeLegacy (command : String) (expectedExit : Int) (timeout : String)
    (cmdCfg : CommandConfig) : String :=
  let command := joinCommandLines command
  let goCode :=
    if isComplexCommand command then
      generateShellCommand command cmdCfg.Shell cmdCfg.ShellFlag
    else generateSimpleCommand command
  let goCode :=
    if timeout ≠ "" ∧ timeout ≠ "0" ∧ timeout ≠ "0s" then wrapWithTimeout goCode timeout
    else goCode
  if expectedExit ≠ 0 then wrapWithExpectedExit goCode expectedExit else goCode

/-! ## `internal/domain/types.go` -/

/-- `domain.CodeBlock`.  The source carries two revisions of this type:
an older one with a single `TestGroup` grouping key and the current one
with the `TestFile` / `StepGroup` pair written by the parsers; the
embedding carries all three fields. -/
structure CodeBlock where
  Tag : String
  Content : String
  LineNumber : Nat
  Attributes : List (String × String)
  Context : String
  TestGroup : String
  TestFile : String
  StepGroup : String
deriving Repr, DecidableEq

/-- `domain.Heading`. -/
structure Heading where
  Level : Nat
  Text : String
  Line : Nat
deriving Repr, DecidableEq

/-- `domain.ParsedDocument`. -/
structure ParsedDocument where
  FilePath : String
  FileType : String
  Blocks : List CodeBlock
  Headings : List Heading
  Metadata : List (String × String)
deriving Repr, DecidableEq

/-- `domain.TestStep`. -/
structure TestStep where
  Name : String
  Command : String
  GoCode : String
  ExpectedExit : Int
  Timeout : String
  LineNumber : Nat
  SkipOnFailure : Bool
  RetryCount : Int
  RetryInterval : String
deriving Repr, DecidableEq

/-- `domain.TestSpec`; `TestFile` is the owning Test Unit key from the
newer revision of the type, which `generator.go` reads for output-file
grouping. -/
structure TestSpec where
  SourceFile : String
  SourceType : String
  TestName : String
  DescribeBlock : String
  ContextBlock : String
  Steps : List TestStep
  TemplateName : String
  TestFile : String
deriving Repr, DecidableEq

/-- `domain.DocSyncerError` (phase, file, 1-based line, message; the
optional wrapped cause is always `nil` at the call sites embedded
here). -/
structure DocSyncerError where
  Phase : String
  File : String
  LineNumber : Nat
  Message : String
deriving Repr, DecidableEq

/-! ## `path/filepath` helpers used by the converter -/

/-- `filepath.Base`. -/
def filepathBase (path : String) : String :=
  if path = "" then "."
  else
    let cs := (path.data.reverse.dropWhile (· == '/')).reverse
    if cs = [] then "/"
    else ⟨(cs.reverse.takeWhile (· ≠ '/')).reverse⟩

/-- `filepath.Ext`: the suffix of the final element starting at its last
dot, or the empty string. -/
def filepathExt (path : String) : String :=
  let elemRev := path.data.reverse.takeWhile (· ≠ '/')
  let took := elemRev.takeWhile (· ≠ '.')
  if took.length = elemRev.length then ""
  else ⟨'.' :: took.reverse⟩

/-! ## `internal/converter/converter.go` -/

/-- The security-policy message `ValidateCommand` formats for a blocked
pattern. -/
def blockedMessage (pattern : String) : String :=
  "command blocked by security policy: contains " ++ goQuote pattern
    ++ " — if this is intentional, remove it from commands.blocked_patterns in docsyncer.yaml"

/-- `ValidateCommand`: scan the blocked patterns in order; the first one
contained in the command produces the error (`none` = Go's `nil`
error). -/
def ValidateCommand (command : String) (blockedPatterns : List String) : Option String :=
  (blockedPatterns.find? (fun pattern => goContains command pattern)).map blockedMessage

/-- `resolveAttribute`: first alias key present in the attribute map
wins; absent everywhere resolves to the empty string. -/
def resolveAttribute (attrs : List (String × String)) (keys : List String) : String :=
  (keys.findSome? (fun key => assocLookup attrs key)).getD ""

/-- The default arm of `autoStepName`'s switch: the first line, cut to
50 bytes when longer. -/
def autoStepNameDefault (first : String) : String :=
  if first.data.length > 50 then ⟨first.data.take 50⟩ else first

/-- `autoStepName`: derive a step name from the command's first line via
the fixed verb table, else truncate, else an index-based placeholder. -/
def autoStepName (command : String) (index : Nat) : String :=
  let lines := goSplitChar (goTrimSpace command) '\n'
  match lines with
  | [] => "Step " ++ toString (index + 1)
  | firstLine :: _ =>
    let first := goTrimSpace firstLine
    let parts := goFields first
    match parts with
    | [] => "Step " ++ toString (index + 1)
    | cmdWord :: args =>
      match args with
      | arg :: _ =>
        if cmdWord == "kubectl" then "kubectl " ++ arg
        else if cmdWord == "helm" then "helm " ++ arg
        else if cmdWord == "docker" then "docker " ++ arg
        else if cmdWord == "curl" then "curl request"
        else autoStepNameDefault first
      | [] =>
        if cmdWord == "curl" then "curl request"
        else autoStepNameDefault first

/-- `inferDescribeBlock`: first level-1 heading, else the first heading
of any level, else the filename without extension. -/
def inferDescribeBlock (doc : ParsedDocument) : String :=
  match doc.Headings.find? (fun h => h.Level == 1) with
  | some h => h.Text
  | none =>
    match doc.Headings with
    | h :: _ => h.Text
    | [] => goRemoveEnd (filepathBase doc.FilePath) (filepathExt doc.FilePath)

/-- `inferContextBlock`: first level-2 heading, or empty. -/
def inferContextBlock (doc : ParsedDocument) : String :=
  match doc.Headings.find? (fun h => h.Level == 2) with
  | some h => h.Text
  | none => ""

/-- `blockToStep`: resolve the logical step attributes and synthesize
the code fragment.  On an `expected_exit_code` attribute that fails
`strconv.Atoi`, the Go code leaves `step.ExpectedExit` at its zero
value `0`; the configured default is only written in the
attribute-absent branch. -/
def blockToStep (cmdConfig : CommandConfig) (block : CodeBlock) (index : Nat)
    (tagCfg : TagConfig) : TestStep :=
  let name0 := resolveAttribute block.Attributes (aliasKeys tagCfg "step_name")
  let name := if name0 == "" then autoStepName block.Content index else name0
  let timeout0 := resolveAttribute block.Attributes (aliasKeys tagCfg "timeout")
  let timeout := if timeout0 == "" then cmdConfig.DefaultTimeout else timeout0
  let exitCodeStr := resolveAttribute block.Attributes (aliasKeys tagCfg "expected_exit_code")
  let expectedExit : Int :=
    if exitCodeStr ≠ "" then
      match goAtoi exitCodeStr with
      | some code => code
      | none => 0
    else cmdConfig.DefaultExpectedExitCode
  let skipStr := resolveAttribute block.Attributes (aliasKeys tagCfg "skip_on_failure")
  { Name := name
    Command := block.Content
    GoCode := GenerateGoCodeLegacy block.Content expectedExit timeout cmdConfig
    ExpectedExit := expectedExit
    Timeout := timeout
    LineNumber := block.LineNumber
    SkipOnFailure := skipStr == "true" || skipStr == "yes"
    RetryCount := 0
    RetryInterval := "" }

/-- Append a block to its group in the insertion-ordered group map. -/
def appendToGroup (m : List (String × List CodeBlock)) (group : String)
    (block : CodeBlock) : List (String × List CodeBlock) :=
  if m.any (fun kv => kv.1 == group) then
    m.map (fun kv => if kv.1 == group then (kv.1, kv.2 ++ [block]) else kv)
  else m ++ [(group, [block])]

/-- One iteration of `Convert`'s grouping loop: record the key on first
sight, then append the block to its group. -/
def groupStep (acc : List String × List (String × List CodeBlock)) (block : CodeBlock) :
    List String × List (String × List CodeBlock) :=
  let order := if acc.2.any (fun kv => kv.1 == block.TestGroup) then acc.1
               else acc.1 ++ [block.TestGroup]
  (order, appendToGroup acc.2 block.TestGroup block)

/-- The grouping loop of `Convert`: group blocks by `TestGroup`,
remembering first-occurrence order of the keys. -/
def groupByTestGroup (blocks : List CodeBlock) :
    List String × List (String × List CodeBlock) :=
  blocks.foldl groupStep ([], [])

/-- Lookup of a group's block list in the group map. -/
def lookupGroup (m : List (String × List CodeBlock)) (group : String) : List CodeBlock :=
  ((m.find? (fun kv => kv.1 == group)).map (·.2)).getD []

/-- The per-group step loop of `Convert`: validate each block, then
convert it (`i` is the running index used for placeholder names). -/
def convertSteps (cmdConfig : CommandConfig) (tagCfg : TagConfig) (filePath : String)
    (blocks : List CodeBlock) (i : Nat) : Except DocSyncerError (List TestStep) :=
  match blocks with
  | [] => .ok []
  | block :: rest =>
    match ValidateCommand block.Content cmdConfig.BlockedPatterns with
    | some msg => .error ⟨"convert", filePath, block.LineNumber, msg⟩
    | none =>
      (convertSteps cmdConfig tagCfg filePath rest (i + 1)).map
        (blockToStep cmdConfig block i tagCfg :: ·)

/-- The template-override scan of `Convert`: for each block in order,
the first `template` alias key present overwrites the override (so the
last block carrying one wins). -/
def templateOverride (tagCfg : TagConfig) (blocks : List CodeBlock) : String :=
  let templateKeys := aliasKeys tagCfg "template"
  blocks.foldl
    (fun acc block =>
      match templateKeys.findSome? (fun key => assocLookup block.Attributes key) with
      | some val => val
      | none => acc)
    ""

/-- The per-group loop of `Convert`. -/
def convertGroups (cmdConfig : CommandConfig) (tagCfg : TagConfig)
    (doc : ParsedDocument) (describeBlock contextBlock fileTestName : String)
    (groupBlocks : List (String × List CodeBlock)) :
    List String → Except DocSyncerError (List TestSpec)
  | [] => .ok []
  | group :: moreGroups => do
    let blocks := lookupGroup groupBlocks group
    let steps ← convertSteps cmdConfig tagCfg doc.FilePath blocks 0
    let testName := if group == "" then fileTestName else group
    let spec : TestSpec :=
      { SourceFile := doc.FilePath
        SourceType := doc.FileType
        TestName := testName
        DescribeBlock := describeBlock
        ContextBlock := contextBlock
        Steps := steps
        TemplateName := templateOverride tagCfg blocks
        TestFile := "" }
    let rest ← convertGroups cmdConfig tagCfg doc describeBlock contextBlock
      fileTestName groupBlocks moreGroups
    .ok (spec :: rest)

/-- `DefaultConverter.Convert`: group the document's blocks by
`TestGroup` in first-occurrence order and emit one Test Specification
per group; any security-validation failure aborts the whole document. -/
def Convert (cmdConfig : CommandConfig) (doc : ParsedDocument) (tagCfg : TagConfig) :
    Except DocSyncerError (List TestSpec) :=
  if doc.Blocks.length = 0 then .ok []
  else
    let describeBlock := inferDescribeBlock doc
    let contextBlock := inferContextBlock doc
    let grouped := groupByTestGroup doc.Blocks
    let base := filepathBase doc.FilePath
    let ext := filepathExt base
    let fileTestName := goRemoveEnd base ext
    convertGroups cmdConfig tagCfg doc describeBlock contextBlock fileTestName
      grouped.2 grouped.1

/-! ## `internal/parser/markdown.go` — the tree-traversal extractor

The goldmark Markdown parser is third-party code outside this
repository; the embedding takes as input the sequence of AST nodes that
`ast.Walk` visits (in document order, entering only), restricted to the
node kinds the walk function inspects.  A `fenced` node carries the
info string (goldmark hands it over already trimmed), the joined raw
content lines and the 1-based line of the first content line; an
`htmlBlock` node carries its joined raw lines. -/

/-- The goldmark AST node kinds `MarkdownParser.Parse` inspects. -/
inductive MdNode where
  | heading (level : Nat) (text : String) (line : Nat)
  | fenced (info : String) (content : String) (line : Nat)
  | htmlBlock (text : String)
  | other
deriving Repr, DecidableEq

/-- `strings.TrimRight` for a set of characters. -/
def goTrimRightChars (s : String) (cutset : List Char) : String :=
  ⟨(s.data.reverse.dropWhile (cutset.contains ·)).reverse⟩

/-- goldmark's `FencedCodeBlock.Language`: the first space-delimited
word of the info string. -/
def mdLanguage (info : String) : String :=
  ⟨info.data.takeWhile (· ≠ ' ')⟩

/-- The loop of `splitInfoString`: tokenize on unquoted spaces and tabs,
keeping quote characters inside the tokens. -/
def splitInfoStringAux : List Char → List (List Char) → List Char → Bool → Char → List (List Char)
  | [], parts, current, _, _ =>
      if current ≠ [] then parts ++ [current] else parts
  | c :: rest, parts, current, inQuote, quoteChar =>
      if inQuote then
        if c == quoteChar then splitInfoStringAux rest parts (current ++ [c]) false quoteChar
        else splitInfoStringAux rest parts (current ++ [c]) true quoteChar
      else
        if c == dquoteChar || c == squoteChar then
          splitInfoStringAux rest parts (current ++ [c]) true c
        else if c == ' ' || c == '\t' then
          if current ≠ [] then splitInfoStringAux rest (parts ++ [current]) [] false quoteChar
          else splitInfoStringAux rest parts current false quoteChar
        else splitInfoStringAux rest parts (current ++ [c]) false quoteChar

/-- `splitInfoString`. -/
def splitInfoString (s : String) : List String :=
  (splitInfoStringAux s.data [] [] false (Char.ofNat 0)).map (⟨·⟩)

/-- `parseInfoString`: first token is the language tag (stored under
`_tag`), the rest populate the attribute map from `key=value` tokens,
values stripped of surrounding quotes. -/
def parseInfoString (info : String) : List (String × String) :=
  let info := goTrimSpace info
  if info == "" then []
  else
    match splitInfoString info with
    | [] => []
    | tagTok :: rest =>
      rest.foldl
        (fun result part =>
          match goIndexOf part "=" with
          | some idx =>
            if idx > 0 then
              let key : String := ⟨part.data.take idx⟩
              let val : String := ⟨part.data.drop (idx + 1)⟩
              assocInsert result key (goTrimAnyEnds val [dquoteChar, squoteChar])
            else result
          | none => result)
        (assocInsert [] "_tag" tagTok)

/-- The traversal-scoped extractor state shared by both parsers: the
accumulated headings, blocks and metadata, plus the three cursor
values. -/
structure WalkState where
  headings : List Heading
  blocks : List CodeBlock
  metadata : List (String × String)
  currentHeading : String
  currentTestFile : String
  currentStepGroup : String
deriving Repr, DecidableEq

/-- The empty extractor state. -/
def WalkState.init : WalkState := ⟨[], [], [], "", "", ""⟩

/-- One step of the `ast.Walk` callback in `MarkdownParser.Parse`. -/
def mdStep (tags : List String) (st : WalkState) (node : MdNode) : WalkState :=
  match node with
  | .heading level text line =>
      { st with headings := st.headings ++ [⟨level, text, line⟩], currentHeading := text }
  | .fenced info content line =>
      let lang := mdLanguage info
      let parts := parseInfoString info
      let tag := (assocLookup parts "_tag").getD ""
      if tags.contains tag || tags.contains lang then
        let attrs := parts.filter (fun kv => kv.1 ≠ "_tag")
        let block : CodeBlock :=
          { Tag := tag
            Content := goTrimRightChars content ['\n']
            LineNumber := line
            Attributes := attrs
            Context := st.currentHeading
            TestGroup := ""
            TestFile := st.currentTestFile
            StepGroup := st.currentStepGroup }
        { st with blocks := st.blocks ++ [block] }
      else st
  | .htmlBlock rawText =>
      let htmlText := goTrimSpace rawText
      if goStartsWith htmlText "<!-- test-start:" then
        let name := goTrimSpace (goRemoveEnd (goRemoveStart htmlText "<!-- test-start:") "-->")
        { st with currentTestFile := name,
                  metadata := assocInsert st.metadata "test-start" name }
      else if goStartsWith htmlText "<!-- test-end" then
        { st with currentTestFile := "" }
      else if goStartsWith htmlText "<!-- test-step-start:" then
        let name := goTrimSpace (goRemoveEnd (goRemoveStart htmlText "<!-- test-step-start:") "-->")
        { st with currentStepGroup := name }
      else if goStartsWith htmlText "<!-- test-step-end" then
        { st with currentStepGroup := "" }
      else st
  | .other => st

/-- `MarkdownParser.Parse` over the visited AST node sequence. -/
def MarkdownParse (filePath : String) (nodes : List MdNode) (tags : List String) :
    ParsedDocument :=
  let st := nodes.foldl (mdStep tags) WalkState.init
  ⟨filePath, "markdown", st.blocks, st.headings, st.metadata⟩

/-! ## `internal/parser/asciidoc.go` — the line-scan extractor -/

/-- The character class `\s` of Go's `regexp` package. -/
def adocRegexSpace (c : Char) : Bool :=
  c == '\t' || c == '\n' || c == '\x0c' || c == '\r' || c == ' '

/-- `asciidocHeadingRe` (`^(={2,6})\s+(.+)$`): on a match, the heading
level (`len(m[1]) - 1`) and the already-trimmed text.  When everything
after the equals signs is whitespace, the greedy `\s+` backtracks one
character so `(.+)` still matches; the captured text then trims to
empty. -/
def adocHeadingMatch (line : String) : Option (Nat × String) :=
  let cs := line.data
  let k := (cs.takeWhile (· == '=')).length
  if 2 ≤ k ∧ k ≤ 6 then
    let rest := cs.drop k
    let w := (rest.takeWhile adocRegexSpace).length
    if 1 ≤ w ∧ w + 1 ≤ rest.length then
      some (k - 1, goTrimSpace ⟨rest.drop w⟩)
    else if 2 ≤ w ∧ w = rest.length then
      some (k - 1, goTrimSpace ⟨rest.drop (rest.length - 1)⟩)
    else none
  else none

/-- `asciidocDelimRe` (`^----+\s*$`): at least four dashes, then only
whitespace. -/
def adocDelimMatch (line : String) : Bool :=
  let cs := line.data
  let d := (cs.takeWhile (· == '-')).length
  4 ≤ d && (cs.drop d).all adocRegexSpace

/-- `asciidocSourceRe` (`^\[source,([^,\]]+)(?:,(.+))?\]\s*$`): on a
match, the raw tag capture and the raw attribute capture (empty when
the optional group is absent). -/
def adocSourceMatch (line : String) : Option (String × String) :=
  if goStartsWith line "[source," then
    let afterCs := line.data.drop 8
    let a := afterCs.takeWhile (fun c => ¬ (c = ',' ∨ c = ']'))
    if a = [] then none
    else
      match afterCs.drop a.length with
      | ']' :: tail =>
          if tail.all adocRegexSpace then some (⟨a⟩, "") else none
      | ',' :: tail =>
          match tail.reverse.dropWhile adocRegexSpace with
          | ']' :: bRev => if bRev ≠ [] then some (⟨a⟩, ⟨bRev.reverse⟩) else none
          | _ => none
      | _ => none
  else none

/-- The loop of `splitAsciidocAttrs`: split on unquoted commas, keeping
quote characters. -/
def splitAsciidocAttrsAux : List Char → List (List Char) → List Char → Bool → Char → List (List Char)
  | [], parts, current, _, _ =>
      if current ≠ [] then parts ++ [current] else parts
  | c :: rest, parts, current, inQuote, quoteChar =>
      if inQuote then
        if c == quoteChar then splitAsciidocAttrsAux rest parts (current ++ [c]) false quoteChar
        else splitAsciidocAttrsAux rest parts (current ++ [c]) true quoteChar
      else
        if c == dquoteChar || c == squoteChar then
          splitAsciidocAttrsAux rest parts (current ++ [c]) true c
        else if c == ',' then
          if current ≠ [] then splitAsciidocAttrsAux rest (parts ++ [current]) [] false quoteChar
          else splitAsciidocAttrsAux rest parts current false quoteChar
        else splitAsciidocAttrsAux rest parts (current ++ [c]) false quoteChar

/-- `splitAsciidocAttrs`. -/
def splitAsciidocAttrs (s : String) : List String :=
  (splitAsciidocAttrsAux s.data [] [] false (Char.ofNat 0)).map (⟨·⟩)

/-- `parseAsciidocAttrs`: comma-separated `key=value` or
`key="value"` attributes. -/
def parseAsciidocAttrs (s : String) : List (String × String) :=
  (splitAsciidocAttrs s).foldl
    (fun attrs part =>
      let part := goTrimSpace part
      match goIndexOf part "=" with
      | some idx =>
        if idx > 0 then
          assocInsert attrs (goTrimSpace ⟨part.data.take idx⟩)
            (goTrimAnyEnds (goTrimSpace ⟨part.data.drop (idx + 1)⟩) [dquoteChar, squoteChar])
        else attrs
      | none => attrs)
    []

/-- The scanning loop of `AsciiDocParser.Parse`; `i` is the 0-based
index of the head of the remaining line list.  The `fuel` argument only
makes the recursion structural (every step consumes at least one line,
so the initial fuel `lines.length` is never exhausted). -/
def adocScanGo (tags : List String) : Nat → List String → Nat → WalkState → WalkState
  | 0, _, _, st => st
  | _ + 1, [], _, st => st
  | fuel + 1, line :: rest, i, st =>
    let trimmed := goTrimSpace line
    if goStartsWith trimmed "// test-start:" then
      let name := goTrimSpace (goRemoveStart trimmed "// test-start:")
      adocScanGo tags fuel rest (i + 1)
        { st with currentTestFile := name,
                  metadata := assocInsert st.metadata "test-start" name }
    else if goStartsWith trimmed "// test-end" then
      adocScanGo tags fuel rest (i + 1) { st with currentTestFile := "" }
    else if goStartsWith trimmed "// test-step-start:" then
      let name := goTrimSpace (goRemoveStart trimmed "// test-step-start:")
      adocScanGo tags fuel rest (i + 1) { st with currentStepGroup := name }
    else if goStartsWith trimmed "// test-step-end" then
      adocScanGo tags fuel rest (i + 1) { st with currentStepGroup := "" }
    else
      match adocHeadingMatch line with
      | some (level, text) =>
        adocScanGo tags fuel rest (i + 1)
          { st with headings := st.headings ++ [⟨level, text, i + 1⟩],
                    currentHeading := text }
      | none =>
        match adocSourceMatch line with
        | some (m1, m2) =>
          let tag := goTrimSpace m1
          if ¬ tags.contains tag then adocScanGo tags fuel rest (i + 1) st
          else
            let attrs := if m2 ≠ "" then parseAsciidocAttrs m2 else []
            match rest with
            | [] => st
            | l2 :: rest2 =>
              if ¬ adocDelimMatch l2 then adocScanGo tags fuel rest2 (i + 2) st
              else
                let contentLines := rest2.takeWhile (fun l => ¬ adocDelimMatch l)
                let rest3 := rest2.drop contentLines.length
                let block : CodeBlock :=
                  { Tag := tag
                    Content := goJoinStr contentLines "\n"
                    LineNumber := i + 3
                    Attributes := attrs
                    Context := st.currentHeading
                    TestGroup := ""
                    TestFile := st.currentTestFile
                    StepGroup := st.currentStepGroup }
                let st := { st with blocks := st.blocks ++ [block] }
                adocScanGo tags fuel (rest3.drop 1) (i + 2 + contentLines.length + 1) st
        | none => adocScanGo tags fuel rest (i + 1) st

/-- The scanning loop at its initial fuel. -/
def adocScan (tags : List String) (lines : List String) (i : Nat) (st : WalkState) :
    WalkState :=
  adocScanGo tags lines.length lines i st

/-- `AsciiDocParser.Parse` over the document text. -/
def AsciiDocParse (filePath : String) (content : String) (tags : List String) :
    ParsedDocument :=
  let lines := goSplitChar content '\n'
  let st := adocScan tags lines 0 WalkState.init
  ⟨filePath, "asciidoc", st.blocks, st.headings, st.metadata⟩

/-! ## The cross-format extraction contract (§4.1 of the spec)

Both extractors drive the same cursor state machine: markers set or
clear the Test Unit / Step Group cursors, and captured blocks snapshot
them.  `ExtractEvent` is the common alphabet; two documents have
*equivalent marker placement, tagged blocks and attributes* exactly
when their event streams coincide.  Heading events are omitted: the
compared structure (grouping keys, attributes, order) does not involve
the heading cursor. -/

/-- The common alphabet of the two extractors. -/
inductive ExtractEvent where
  | testStart (name : String)
  | testEnd
  | stepStart (name : String)
  | stepEnd
  | block (tag : String) (attrs : List (String × String))
deriving Repr, DecidableEq

/-- One transition of the marker cursor pair (Test Unit key, Step Group
key). -/
def markerStep (cursor : String × String) : ExtractEvent → String × String
  | .testStart name => (name, cursor.2)
  | .testEnd => ("", cursor.2)
  | .stepStart name => (cursor.1, name)
  | .stepEnd => (cursor.1, "")
  | .block _ _ => cursor

/-- The structural content of an extracted Content Unit: tag, attribute
map, Test Unit key, Step Group key. -/
def structProj (blocks : List CodeBlock) :
    List (String × List (String × String) × String × String) :=
  blocks.map (fun b => (b.Tag, b.Attributes, b.TestFile, b.StepGroup))

/-- Run the cursor machine over an event stream, emitting the snapshot
taken at each block event. -/
def machineBlocks : List ExtractEvent → String × String →
    List (String × List (String × String) × String × String)
  | [], _ => []
  | .block tag attrs :: rest, cursor =>
      (tag, attrs, cursor.1, cursor.2) :: machineBlocks rest cursor
  | e :: rest, cursor => machineBlocks rest (markerStep cursor e)

/-- The events a single goldmark node contributes under
`MarkdownParser.Parse`'s walk. -/
def mdNodeEvents (tags : List String) (node : MdNode) : List ExtractEvent :=
  match node with
  | .heading _ _ _ => []
  | .fenced info _ _ =>
    let lang := mdLanguage info
    let parts := parseInfoString info
    let tag := (assocLookup parts "_tag").getD ""
    if tags.contains tag || tags.contains lang then
      [.block tag (parts.filter (fun kv => kv.1 ≠ "_tag"))]
    else []
  | .htmlBlock rawText =>
    let htmlText := goTrimSpace rawText
    if goStartsWith htmlText "<!-- test-start:" then
      [.testStart (goTrimSpace (goRemoveEnd (goRemoveStart htmlText "<!-- test-start:") "-->"))]
    else if goStartsWith htmlText "<!-- test-end" then [.testEnd]
    else if goStartsWith htmlText "<!-- test-step-start:" then
      [.stepStart (goTrimSpace (goRemoveEnd (goRemoveStart htmlText "<!-- test-step-start:") "-->"))]
    else if goStartsWith htmlText "<!-- test-step-end" then [.stepEnd]
    else []
  | .other => []

/-- The event stream of a Markdown node sequence. -/
def mdEvents (tags : List String) (nodes : List MdNode) : List ExtractEvent :=
  nodes.flatMap (mdNodeEvents tags)

/-- The event stream of an AsciiDoc line sequence, mirroring
`adocScanGo`'s control flow (same structural fuel). -/
def adocEventsGo (tags : List String) : Nat → List String → List ExtractEvent
  | 0, _ => []
  | _ + 1, [] => []
  | fuel + 1, line :: rest =>
    let trimmed := goTrimSpace line
    if goStartsWith trimmed "// test-start:" then
      .testStart (goTrimSpace (goRemoveStart trimmed "// test-start:")) :: adocEventsGo tags fuel rest
    else if goStartsWith trimmed "// test-end" then
      .testEnd :: adocEventsGo tags fuel rest
    else if goStartsWith trimmed "// test-step-start:" then
      .stepStart (goTrimSpace (goRemoveStart trimmed "// test-step-start:")) :: adocEventsGo tags fuel rest
    else if goStartsWith trimmed "// test-step-end" then
      .stepEnd :: adocEventsGo tags fuel rest
    else
      match adocHeadingMatch line with
      | some _ => adocEventsGo tags fuel rest
      | none =>
        match adocSourceMatch line with
        | some (m1, m2) =>
          let tag := goTrimSpace m1
          if ¬ tags.contains tag then adocEventsGo tags fuel rest
          else
            let attrs := if m2 ≠ "" then parseAsciidocAttrs m2 else []
            match rest with
            | [] => []
            | l2 :: rest2 =>
              if ¬ adocDelimMatch l2 then adocEventsGo tags fuel rest2
              else
                let contentLines := rest2.takeWhile (fun l => ¬ adocDelimMatch l)
                let rest3 := rest2.drop contentLines.length
                .block tag attrs :: adocEventsGo tags fuel (rest3.drop 1)
        | none => adocEventsGo tags fuel rest

/-- The event stream at its initial fuel. -/
def adocEvents (tags : List String) (lines : List String) : List ExtractEvent :=
  adocEventsGo tags lines.length lines

/-! ## The current (post-`TestFile`) converter, modelled from the spec -/

/-- First-occurrence order of a key list. -/
def firstOccurrenceOrder (keys : List String) : List String :=
  keys.foldl (fun acc k => if acc.contains k then acc else acc ++ [k]) []

/-- The document's fallback test name: filename without extension. -/
def fileTestName (doc : ParsedDocument) : String :=
  let base := filepathBase doc.FilePath
  goRemoveEnd base (filepathExt base)

/-- Modelled from the spec: the current revision of
`DefaultConverter.Convert` — the one whose converter tests resolve
retry attributes and whose caller `generator.go` reads
`TestSpec.TestFile` — is not present in the source tree (only the older
`TestGroup`-keyed revision is).  Per §4.2 of the spec it groups a
document's Content Units first by Test Unit key in stable
first-occurrence order, then within each Test Unit by Step Group key,
and resolves each Test Specification's name by the precedence Step
Group key → Test Unit key → document filename without extension. -/
def ConvertGrouped (cmdConfig : CommandConfig) (doc : ParsedDocument)
    (tagCfg : TagConfig) : List TestSpec :=
  let tuKeys := firstOccurrenceOrder (doc.Blocks.map (·.TestFile))
  tuKeys.flatMap (fun tu =>
    let tuBlocks := doc.Blocks.filter (fun b => b.TestFile == tu)
    let sgKeys := firstOccurrenceOrder (tuBlocks.map (·.StepGroup))
    sgKeys.map (fun sg =>
      let blocks := tuBlocks.filter (fun b => b.StepGroup == sg)
      { SourceFile := doc.FilePath
        SourceType := doc.FileType
        TestName := if sg ≠ "" then sg else if tu ≠ "" then tu else fileTestName doc
        DescribeBlock := inferDescribeBlock doc
        ContextBlock := inferContextBlock doc
        Steps := blocks.enum.map (fun ib => blockToStep cmdConfig ib.2 ib.1 tagCfg)
        TemplateName := templateOverride tagCfg blocks
        TestFile := tu }))

/-! ## Auxiliary definitions used by the theorem statements -/

/-- The classification decomposition of `GenerateGoCode`: stages 2–4 as
a function of the base scaffold (this is the spec's wrapper pipeline,
used in the theorem statements below). -/
def applyStages (g : String) (expectedExit : Int) (timeout : String)
    (retryCount : Int) (retryInterval : String) : String :=
  let g1 := if expectedExit ≠ 0 then wrapWithExpectedExit g expectedExit else g
  let g2 := if retryCount > 0 then wrapWithRetry g1 retryCount retryInterval else g1
  if timeout ≠ "" ∧ timeout ≠ "0" ∧ timeout ≠ "0s" then wrapWithTimeout g2 timeout
  else g2

/-- The sample command configuration used for the concrete instances
(shell `/bin/sh`, flag `-c`, as in the repository's converter tests). -/
def sampleCmdConfig : CommandConfig :=
  ⟨"/bin/sh", "-c", "30s", 0, ["rm -rf /", "mkfs"]⟩

/-- Representative (expected exit, timeout, retry) activations: each of
the eight on/off combinations of stages 2–4. -/
def stageCombos : List (Int × String × Int) :=
  [(0, "", 0), (1, "", 0), (0, "", 3), (0, "10s", 0),
   (1, "", 3), (1, "10s", 0), (0, "10s", 3), (1, "10s", 3)]

/-- The fragment `GenerateGoCode` produces for the C2 step instance
(expected exit 1, retry 3, timeout `"10s"`, command `false`), written
out in full. -/
def retryFragmentSample : String :=
  "dur, err := time.ParseDuration(\"10s\")\n\t\t\tExpect(err).ToNot(HaveOccurred())\n\t\t\tctx, cancel := context.WithTimeout(context.Background(), dur)\n\t\t\tdefer cancel()\n\t\t\t\x7b\n\t\t\tvar lastOutput []byte\n\t\t\tvar lastErr error\n\t\t\tfor attempt := 1; attempt <= 4; attempt++ \x7b\n\t\t\t\tcmd := exec.CommandContext(ctx, \"false\")\n\t\t\tlastOutput, lastErr = cmd.CombinedOutput()\n\t\t\t\tif lastErr == nil \x7b\n\t\t\t\t\tbreak\n\t\t\t\t\x7d\n\t\t\t\tif attempt <= 3 \x7b\n\t\t\t\t\ttime.Sleep(2 * time.Second)\n\t\t\t\t\x7d\n\t\t\t\x7d\n\t\t\tif exitErr, ok := lastErr.(*exec.ExitError); ok \x7b\n\t\t\t\tExpect(exitErr.ExitCode()).To(Equal(1), string(lastOutput))\n\t\t\t\x7d else \x7b\n\t\t\t\t\n\t\t\t\x7d\n\t\t\x7d"

/-- The trimmed first line of a command, as `autoStepName` computes
it. -/
def commandFirstLine (command : String) : String :=
  match goSplitChar (goTrimSpace command) '\n' with
  | [] => ""
  | l :: _ => goTrimSpace l

/-- A command configuration with a nonzero default expected exit code,
exercising the fallback paths of `blockToStep`. -/
def exitFiveConfig : CommandConfig := ⟨"/bin/sh", "-c", "30s", 5, []⟩

/-- The alias table of the repository's converter tests. -/
def sampleTagConfig : TagConfig :=
  ⟨[("step_name", ["step-name", "name"]),
    ("timeout", ["timeout"]),
    ("expected_exit_code", ["expected", "exit-code"]),
    ("skip_on_failure", ["skip-on-failure"]),
    ("template", ["template"])]⟩

/-- A Content Unit whose expected-exit-code attribute is present but
not numeric. -/
def badExitBlock : CodeBlock :=
  ⟨"go-e2e-step", "kubectl get pods", 3, [("expected", "abc")], "", "", "", ""⟩

/-! ## Correctness of the substring-search primitives -/

theorem charsStartsWith_iff (s p : List Char) :
    charsStartsWith s p = true ↔ ∃ t, s = p ++ t := by
  induction p generalizing s with
  | nil => simp [charsStartsWith]
  | cons d p' ih =>
    cases s with
    | nil => simp [charsStartsWith]
    | cons c s' =>
      simp only [charsStartsWith, Bool.and_eq_true, beq_iff_eq, ih, List.cons_append,
        List.cons.injEq]
      constructor
      · rintro ⟨rfl, t, rfl⟩; exact ⟨t, rfl, rfl⟩
      · rintro ⟨t, rfl, rfl⟩; exact ⟨rfl, t, rfl⟩

theorem charsFindSubFrom_isSome_iff (s p : List Char) (i : Nat) :
    (charsFindSubFrom s p i).isSome = true ↔ p <:+: s := by
  induction s generalizing i with
  | nil =>
    rw [charsFindSubFrom]
    rcases p with _ | ⟨d, p'⟩
    · simp [charsStartsWith]
    · simp [charsStartsWith]
  | cons c s' ih =>
    rw [charsFindSubFrom]
    cases hb : charsStartsWith (c :: s') p with
    | true =>
      simp only [if_true, Option.isSome_some, true_iff]
      obtain ⟨t, ht⟩ := (charsStartsWith_iff _ _).1 hb
      exact ⟨[], t, by rw [ht]; simp⟩
    | false =>
      simp only [Bool.false_eq_true, if_false]
      rw [ih, List.infix_cons_iff]
      constructor
      · exact Or.inr
      · rintro (⟨t, ht⟩ | hi)
        · exact absurd ((charsStartsWith_iff _ _).2 ⟨t, ht.symm⟩) (by simp [hb])
        · exact hi

theorem charsFindSub_isSome_iff (s p : List Char) :
    (charsFindSub s p).isSome = true ↔ p <:+: s :=
  charsFindSubFrom_isSome_iff s p 0

theorem charsContainsSub_iff (s p : List Char) :
    charsContainsSub s p = true ↔ p <:+: s := by
  unfold charsContainsSub; exact charsFindSub_isSome_iff s p

theorem goContains_iff (s sub : String) :
    goContains s sub = true ↔ sub.data <:+: s.data :=
  charsContainsSub_iff s.data sub.data

theorem goContains_of_sub {s sub : String} (h : sub.data <:+: s.data) :
    goContains s sub = true :=
  (goContains_iff s sub).2 h

/-- Any two-or-more element join contains the separator. -/
theorem goJoinStr_foldl_data (sep : String) (l : List String) (acc : String) :
    ∃ t, (l.foldl (fun acc q => acc ++ sep ++ q) acc).data = acc.data ++ t := by
  induction l generalizing acc with
  | nil => exact ⟨[], by simp⟩
  | cons q l ih =>
    obtain ⟨t, ht⟩ := ih (acc ++ sep ++ q)
    exact ⟨sep.data ++ q.data ++ t, by simp [List.foldl_cons, ht, String.data_append]⟩

theorem goJoinStr_sep_occurs (a b : String) (l : List String) (sep : String) :
    sep.data <:+: (goJoinStr (a :: b :: l) sep).data := by
  show sep.data <:+: ((b :: l).foldl (fun acc q => acc ++ sep ++ q) a).data
  obtain ⟨t, ht⟩ := goJoinStr_foldl_data sep l (a ++ sep ++ b)
  rw [List.foldl_cons, ht]
  refine ⟨a.data, b.data ++ t, ?_⟩
  simp [String.data_append]

theorem generateGoCode_eq_applyStages (command : String) (e : Int) (t : String)
    (r : Int) (i : String) (cfgc : CommandConfig) :
    GenerateGoCode command e t r i cfgc =
      applyStages
        (if isComplexCommand (joinCommandLines command) then
          generateShellCommand (joinCommandLines command) cfgc.Shell cfgc.ShellFlag
        else generateSimpleCommand (joinCommandLines command)) e t r i := by
  unfold GenerateGoCode applyStages joinCommandLines
  rfl

theorem wrapWithRetry_shape (g : String) (r : Int) (i : String) :
    ∃ body post, wrapWithRetry g r i = retryLoopShape (r + 1) r (formatDuration i) body post := by
  unfold wrapWithRetry
  dsimp only
  split
  · split
    · exact ⟨_, _, rfl⟩
    · exact ⟨_, _, rfl⟩
  · exact ⟨_, _, rfl⟩

/-! ## Claim theorems: the command synthesizer -/

set_option maxRecDepth 200000

/-- **C1.**  The synthesizer composes the wrappers in the fixed order
base scaffold → exit-code rewrite (iff expected exit ≠ 0) → retry loop
(iff retry count > 0) → deadline scope (iff the timeout string is
configured and not a zero sentinel): (1) `GenerateGoCode` equals the
staged pipeline applied to the classified base scaffold; (2) whenever a
timeout is active the result is the deadline-scope prologue prefixed to
everything else, the retry loop (when active) lying whole inside it;
(3) the fragment is brace-balanced in all eight activation combinations
of stages 2–4, including all four stages active at once, on both a
simple and a shell-classified command. -/
theorem generateGoCode_fixed_wrapper_order :
    (∀ command e t r i cfgc,
      GenerateGoCode command e t r i cfgc =
        applyStages
          (if isComplexCommand (joinCommandLines command) then
            generateShellCommand (joinCommandLines command) cfgc.Shell cfgc.ShellFlag
          else generateSimpleCommand (joinCommandLines command)) e t r i)
    ∧ (∀ command e (t : String) (r : Int) i cfgc,
        t ≠ "" ∧ t ≠ "0" ∧ t ≠ "0s" →
        ∃ g2, GenerateGoCode command e t r i cfgc
            = timeoutPrologue t ++ goReplaceFirst g2 "exec.Command(" "exec.CommandContext(ctx, "
          ∧ (0 < r → ∃ body post,
              g2 = retryLoopShape (r + 1) r (formatDuration i) body post))
    ∧ ((stageCombos.all fun combo =>
          goBraceBalanced
            (GenerateGoCode "kubectl get pods" combo.1 combo.2.1 combo.2.2 "2s" sampleCmdConfig))
        && goBraceBalanced (GenerateGoCode "cat a | grep b" 1 "10s" 3 "2s" sampleCmdConfig)) = true := by
  refine ⟨generateGoCode_eq_applyStages, ?_, by decide⟩
  intro command e t r i cfgc h
  rw [generateGoCode_eq_applyStages]
  unfold applyStages
  dsimp only
  rw [if_pos h]
  refine ⟨_, rfl, fun hr => ?_⟩
  rw [if_pos hr]
  exact wrapWithRetry_shape _ r i

/-- Closed witness for the hypotheses of
`generateGoCode_fixed_wrapper_order`. -/
theorem generateGoCode_fixed_wrapper_order_witness :
    ("10s" ≠ "" ∧ "10s" ≠ "0" ∧ "10s" ≠ "0s")
    ∧ ∃ g2, GenerateGoCode "kubectl get pods" 1 "10s" 3 "2s" sampleCmdConfig
          = timeoutPrologue "10s" ++ goReplaceFirst g2 "exec.Command(" "exec.CommandContext(ctx, "
        ∧ (0 < (3 : Int) → ∃ body post,
            g2 = retryLoopShape (3 + 1) 3 (formatDuration "2s") body post) :=
  ⟨by decide,
    generateGoCode_fixed_wrapper_order.2.1 "kubectl get pods" 1 "10s" 3 "2s"
      sampleCmdConfig (by decide)⟩

/-- **C2.**  For retry count r > 0 the synthesized fragment is a loop
of `r + 1` total attempts whose template assigns into the loop-scoped
`lastOutput` / `lastErr`, exits early on success, sleeps only under the
guard `attempt <= r` (hence never after the final attempt), and emits
the final (possibly exit-aware) assertion exactly once after the loop:
(1) every `wrapWithRetry` result instantiates that template; (2) for
r > 0 `GenerateGoCode` wraps the stage-2 scaffold in `wrapWithRetry`
and (only) an active timeout encloses it; (3) the step with expected
exit 1, retry 3, timeout "10s" produces (verbatim) a 4-total-attempt
loop inside a single deadline scope with exactly one exit-code
conditional assertion, positioned after the loop. -/
theorem retry_loop_structure :
    (∀ g (r : Int) i, ∃ body post,
        wrapWithRetry g r i = retryLoopShape (r + 1) r (formatDuration i) body post)
    ∧ (∀ command e t i cfgc (r : Int), 0 < r →
        ∃ g1, GenerateGoCode command e t r i cfgc =
            (if t ≠ "" ∧ t ≠ "0" ∧ t ≠ "0s" then
              wrapWithTimeout (wrapWithRetry g1 r i) t
            else wrapWithRetry g1 r i))
    ∧ GenerateGoCode "false" 1 "10s" 3 "2s" sampleCmdConfig = retryFragmentSample
    ∧ (goStartsWith retryFragmentSample "dur, err := time.ParseDuration(\"10s\")"
        && goCountSub retryFragmentSample "context.WithTimeout" == 1
        && goCountSub retryFragmentSample "for attempt" == 1
        && goCountSub retryFragmentSample "attempt <= 4" == 1
        && goCountSub retryFragmentSample "lastOutput, lastErr = cmd.CombinedOutput()" == 1
        && goCountSub retryFragmentSample "time.Sleep" == 1
        && goCountSub retryFragmentSample "if attempt <= 3 \x7b" == 1
        && goCountSub retryFragmentSample "Expect(exitErr.ExitCode()).To(Equal(1), string(lastOutput))" == 1
        && goContains retryFragmentSample "if lastErr == nil \x7b\n\t\t\t\t\tbreak"
        && ((goIndexOf retryFragmentSample "for attempt").getD 999
              < (goIndexOf retryFragmentSample "lastOutput, lastErr =").getD 0)
        && ((goIndexOf retryFragmentSample "lastOutput, lastErr =").getD 999
              < (goIndexOf retryFragmentSample "\n\t\t\t\x7d\n\t\t\tif exitErr").getD 0)
        && ((goIndexOf retryFragmentSample "\n\t\t\t\x7d\n\t\t\tif exitErr").getD 999
              < (goIndexOf retryFragmentSample "Expect(exitErr.ExitCode()").getD 0)) = true := by
  refine ⟨fun g r i => wrapWithRetry_shape g r i, ?_, by decide, by decide⟩
  intro command e t i cfgc r hr
  rw [generateGoCode_eq_applyStages]
  unfold applyStages
  dsimp only
  rw [if_pos hr]
  exact ⟨_, rfl⟩

/-- Closed witness for the hypotheses of `retry_loop_structure`. -/
theorem retry_loop_structure_witness :
    0 < (3 : Int)
    ∧ ∃ g1, GenerateGoCode "kubectl get pods" 0 "" 3 "2s" sampleCmdConfig =
        (if ("" : String) ≠ "" ∧ ("" : String) ≠ "0" ∧ ("" : String) ≠ "0s" then
          wrapWithTimeout (wrapWithRetry g1 3 "2s") ""
        else wrapWithRetry g1 3 "2s") :=
  ⟨by decide, retry_loop_structure.2.1 "kubectl get pods" 0 "" "2s" sampleCmdConfig 3 (by decide)⟩

/-- **C3.**  A (joined, single-line) command classifies complex exactly
when it contains a member of the fixed metacharacter set; complex
commands render as a shell invocation (shell path, shell flag, whole
command as one argument), simple commands are quote-aware tokenized and
invoked directly; `"cat a | grep b"` is complex, `"kubectl get pods"`
is simple. -/
theorem complexity_classification :
    (∀ cmd, isComplexCommand cmd = true ↔ ∃ c ∈ complexChars, goContains cmd c = true)
    ∧ isComplexCommand "cat a | grep b" = true
    ∧ isComplexCommand "kubectl get pods" = false
    ∧ (∀ cmd sh fl, generateShellCommand cmd sh fl =
        "cmd := exec.Command(" ++ goQuote sh ++ ", " ++ goQuote fl ++ ", "
          ++ goQuote cmd ++ scaffoldTail)
    ∧ GenerateGoCode "cat a | grep b" 0 "" 0 "" sampleCmdConfig
        = "cmd := exec.Command(\"/bin/sh\", \"-c\", \"cat a | grep b\"" ++ scaffoldTail
    ∧ GenerateGoCode "kubectl get pods" 0 "" 0 "" sampleCmdConfig
        = "cmd := exec.Command(\"kubectl\", \"get\", \"pods\"" ++ scaffoldTail
    ∧ shellSplit "echo 'a b' \"c d\"" = ["echo", "a b", "c d"] := by
  refine ⟨fun cmd => ?_, by decide, by decide, fun _ _ _ => rfl, by decide, by decide, by decide⟩
  unfold isComplexCommand
  simp [List.any_eq_true]

/-- **C10.**  A command body with two or more non-blank lines is joined
with the `" && "` connective, which itself contains the metacharacter
`"&&"`, so every such command classifies complex and is synthesized
through the shell indirection — regardless of what the individual lines
contain. -/
theorem multiline_commands_use_shell :
    ∀ command e t (r : Int) i cfgc,
      2 ≤ (goSplitChar (goTrimSpace command) '\n').countP (fun l => goTrimSpace l ≠ "") →
      isComplexCommand (joinCommandLines command) = true
      ∧ GenerateGoCode command e t r i cfgc =
          applyStages (generateShellCommand (joinCommandLines command) cfgc.Shell cfgc.ShellFlag)
            e t r i := by
  intro command e t r i cfgc h
  have hfil : 2 ≤ (((goSplitChar (goTrimSpace command) '\n').map goTrimSpace).filter
      (fun s => s ≠ "")).length := by
    rw [List.filter_map, List.length_map, ← List.countP_eq_length_filter]
    exact h
  have hlen : 1 < (goSplitChar (goTrimSpace command) '\n').length := by
    have h1 := List.length_filter_le (fun s => s ≠ "")
      ((goSplitChar (goTrimSpace command) '\n').map goTrimSpace)
    rw [List.length_map] at h1
    omega
  have hjoin : joinCommandLines command =
      goJoinStr (((goSplitChar (goTrimSpace command) '\n').map goTrimSpace).filter
        (fun s => s ≠ "")) " && " := by
    unfold joinCommandLines
    rw [if_pos hlen]
  have hcomplex : isComplexCommand (joinCommandLines command) = true := by
    match hf : ((goSplitChar (goTrimSpace command) '\n').map goTrimSpace).filter
        (fun s => s ≠ "") with
    | [] => rw [hf] at hfil; simp at hfil
    | [a] => rw [hf] at hfil; simp at hfil
    | a :: b :: tl =>
      have hinfix : ("&&" : String).data <:+: (goJoinStr (a :: b :: tl) " && ").data :=
        List.IsInfix.trans (by decide) (goJoinStr_sep_occurs a b tl " && ")
      have hcontains : goContains (joinCommandLines command) "&&" = true := by
        rw [hjoin, hf]
        exact goContains_of_sub hinfix
      unfold isComplexCommand
      rw [List.any_eq_true]
      exact ⟨"&&", by decide, hcontains⟩
  refine ⟨hcomplex, ?_⟩
  rw [generateGoCode_eq_applyStages, hcomplex]
  simp

/-- Closed witness for the hypothesis of
`multiline_commands_use_shell`. -/
theorem multiline_commands_use_shell_witness :
    (2 ≤ (goSplitChar (goTrimSpace "echo a\necho b") '\n').countP
        (fun l => goTrimSpace l ≠ ""))
    ∧ (isComplexCommand (joinCommandLines "echo a\necho b") = true
       ∧ GenerateGoCode "echo a\necho b" 0 "" 0 "" sampleCmdConfig =
           applyStages
             (generateShellCommand (joinCommandLines "echo a\necho b")
               sampleCmdConfig.Shell sampleCmdConfig.ShellFlag) 0 "" 0 "") :=
  ⟨by decide, multiline_commands_use_shell "echo a\necho b" 0 "" 0 "" sampleCmdConfig (by decide)⟩

/-! ## Grouping lemmas for the converter -/

theorem lookupGroup_nil (g : String) : lookupGroup [] g = [] := rfl

theorem lookupGroup_cons (k : String) (v : List CodeBlock)
    (m : List (String × List CodeBlock)) (g' : String) :
    lookupGroup ((k, v) :: m) g' = if k == g' then v else lookupGroup m g' := by
  rw [lookupGroup, List.find?_cons]
  cases hk : k == g' <;> simp [lookupGroup, hk]

theorem lookupGroup_append_absent (m : List (String × List CodeBlock)) (g : String)
    (b : CodeBlock) (g' : String) (h : m.any (fun kv => kv.1 == g) = false) :
    lookupGroup (m ++ [(g, [b])]) g' =
      if g' = g then lookupGroup m g ++ [b] else lookupGroup m g' := by
  induction m with
  | nil =>
    rw [List.nil_append, lookupGroup_cons]
    by_cases hg : g' = g
    · rw [if_pos (beq_iff_eq.2 hg.symm), if_pos hg, lookupGroup_nil, List.nil_append]
    · rw [if_neg (by simp [beq_iff_eq]; exact fun e => hg e.symm), if_neg hg]
  | cons kv m ih =>
    obtain ⟨k, v⟩ := kv
    simp only [List.any_cons, Bool.or_eq_false_iff] at h
    obtain ⟨hk, hm⟩ := h
    rw [List.cons_append, lookupGroup_cons]
    by_cases hkg' : (k == g') = true
    · rw [if_pos hkg']
      have hg : ¬ g' = g := by
        intro e
        rw [e] at hkg'
        simp [hkg'] at hk
      rw [if_neg hg, lookupGroup_cons, if_pos hkg']
    · rw [if_neg hkg', ih hm]
      by_cases hg : g' = g <;> simp [hg, lookupGroup_cons, hk, hkg']

theorem lookupGroup_map_upd_self (m : List (String × List CodeBlock)) (g : String)
    (b : CodeBlock) :
    m.any (fun kv => kv.1 == g) = true →
    lookupGroup (m.map (fun kv => if kv.1 == g then (kv.1, kv.2 ++ [b]) else kv)) g
      = lookupGroup m g ++ [b] := by
  induction m with
  | nil => intro h; simp at h
  | cons kv m ih =>
    intro h
    obtain ⟨k, v⟩ := kv
    by_cases hk : (k == g) = true
    · simp only [List.map_cons, hk, if_true]
      rw [lookupGroup_cons, lookupGroup_cons, if_pos hk, if_pos hk]
    · simp only [List.any_cons, hk, Bool.false_or] at h
      simp only [List.map_cons, hk, Bool.false_eq_true, if_false]
      rw [lookupGroup_cons, lookupGroup_cons, if_neg hk, if_neg hk]
      exact ih h

theorem lookupGroup_map_upd_ne (m : List (String × List CodeBlock)) (g : String)
    (b : CodeBlock) (g' : String) (h : g' ≠ g) :
    lookupGroup (m.map (fun kv => if kv.1 == g then (kv.1, kv.2 ++ [b]) else kv)) g'
      = lookupGroup m g' := by
  induction m with
  | nil => rfl
  | cons kv m ih =>
    obtain ⟨k, v⟩ := kv
    by_cases hk : (k == g) = true
    · have hne : (k == g') = false := by
        simp only [beq_iff_eq] at hk ⊢
        simp [hk]
        exact fun e => h e.symm
      simp only [List.map_cons, hk, if_true]
      rw [lookupGroup_cons, lookupGroup_cons, if_neg (by simp [hne]), if_neg (by simp [hne])]
      exact ih
    · simp only [List.map_cons, hk, Bool.false_eq_true, if_false]
      rw [lookupGroup_cons, lookupGroup_cons]
      by_cases hk' : (k == g') = true
      · rw [if_pos hk', if_pos hk']
      · rw [if_neg hk', if_neg hk']
        exact ih

theorem lookupGroup_appendToGroup (m : List (String × List CodeBlock)) (g : String)
    (b : CodeBlock) (g' : String) :
    lookupGroup (appendToGroup m g b) g' =
      if g' = g then lookupGroup m g ++ [b] else lookupGroup m g' := by
  unfold appendToGroup
  cases hany : m.any (fun kv => kv.1 == g) with
  | false =>
    simp only [Bool.false_eq_true, if_false]
    exact lookupGroup_append_absent m g b g' hany
  | true =>
    simp only [if_true]
    by_cases hg : g' = g
    · rw [if_pos hg]; subst hg; exact lookupGroup_map_upd_self m g' b hany
    · rw [if_neg hg]; exact lookupGroup_map_upd_ne m g b g' hg

theorem any_appendToGroup (m : List (String × List CodeBlock)) (g : String)
    (b : CodeBlock) (g' : String) :
    (appendToGroup m g b).any (fun kv => kv.1 == g')
      = (m.any (fun kv => kv.1 == g') || g == g') := by
  unfold appendToGroup
  cases hany : m.any (fun kv => kv.1 == g) with
  | false =>
    simp [List.any_append]
  | true =>
    simp only [if_true, List.any_map]
    have hfun : ((fun kv : String × List CodeBlock => kv.1 == g')
          ∘ fun kv => if kv.1 == g then (kv.1, kv.2 ++ [b]) else kv)
        = fun kv : String × List CodeBlock => kv.1 == g' := by
      funext kv
      obtain ⟨k2, v2⟩ := kv
      by_cases hkv : k2 = g <;> simp [hkv]
    rw [hfun]
    by_cases hgg : g = g'
    · subst hgg
      simp [hany]
    · simp [beq_iff_eq, hgg]

theorem groupFold_lookup (blocks : List CodeBlock)
    (acc : List String × List (String × List CodeBlock)) (g : String) :
    lookupGroup ((blocks.foldl groupStep acc).2) g
      = lookupGroup acc.2 g ++ blocks.filter (fun b => b.TestGroup == g) := by
  induction blocks generalizing acc with
  | nil => simp
  | cons b bs ih =>
    rw [List.foldl_cons, ih]
    show lookupGroup (appendToGroup acc.2 b.TestGroup b) g ++ _ = _
    rw [lookupGroup_appendToGroup]
    by_cases hg : g = b.TestGroup
    · rw [if_pos hg, List.filter_cons]
      simp [hg.symm, List.append_assoc]
    · rw [if_neg hg, List.filter_cons]
      have : (b.TestGroup == g) = false := by simp [beq_iff_eq]; exact fun e => hg e.symm
      simp [this]

theorem groupFold_order (blocks : List CodeBlock)
    (acc : List String × List (String × List CodeBlock))
    (hinv : ∀ g, acc.2.any (fun kv => kv.1 == g) = acc.1.contains g) :
    (blocks.foldl groupStep acc).1
      = blocks.foldl
          (fun ord b => if ord.contains b.TestGroup then ord else ord ++ [b.TestGroup])
          acc.1 := by
  induction blocks generalizing acc with
  | nil => rfl
  | cons b bs ih =>
    rw [List.foldl_cons, List.foldl_cons]
    have hstep1 : (groupStep acc b).1 =
        if acc.1.contains b.TestGroup then acc.1 else acc.1 ++ [b.TestGroup] := by
      show (if acc.2.any (fun kv => kv.1 == b.TestGroup) then acc.1
            else acc.1 ++ [b.TestGroup]) = _
      rw [hinv]
    have hstep2 : ∀ g, (groupStep acc b).2.any (fun kv => kv.1 == g)
        = (groupStep acc b).1.contains g := by
      intro g
      show (appendToGroup acc.2 b.TestGroup b).any (fun kv => kv.1 == g)
          = (if acc.2.any (fun kv => kv.1 == b.TestGroup) then acc.1
             else acc.1 ++ [b.TestGroup]).contains g
      rw [any_appendToGroup, hinv, hinv]
      by_cases hb : acc.1.contains b.TestGroup
      · rw [if_pos hb]
        by_cases hbg : b.TestGroup = g
        · subst hbg
          simp only [beq_self_eq_true, Bool.or_true, hb]
        · simp [beq_iff_eq, hbg]
      · rw [if_neg hb]
        by_cases hbg : b.TestGroup = g
        · subst hbg; simp
        · simp [beq_iff_eq, hbg, List.elem_iff, List.mem_append, Ne.symm hbg]
    rw [ih (groupStep acc b) hstep2, hstep1]

theorem groupByTestGroup_lookup (blocks : List CodeBlock) (g : String) :
    lookupGroup (groupByTestGroup blocks).2 g = blocks.filter (fun b => b.TestGroup == g) := by
  unfold groupByTestGroup
  rw [groupFold_lookup]
  rfl

theorem groupByTestGroup_order (blocks : List CodeBlock) :
    (groupByTestGroup blocks).1 = firstOccurrenceOrder (blocks.map (·.TestGroup)) := by
  unfold groupByTestGroup firstOccurrenceOrder
  rw [groupFold_order blocks ([], []) (fun g => rfl), List.foldl_map]

theorem mem_foldl_firstOccurrence (keys : List String) (acc : List String) (x : String) :
    x ∈ keys.foldl (fun a k => if a.contains k then a else a ++ [k]) acc
      ↔ x ∈ acc ∨ x ∈ keys := by
  induction keys generalizing acc with
  | nil => simp
  | cons k ks ih =>
    rw [List.foldl_cons, ih]
    by_cases hc : acc.contains k
    · rw [if_pos hc]
      by_cases hx : x = k
      · subst hx
        simp [List.elem_iff] at hc
        simp [hc]
      · simp [hx]
    · rw [if_neg hc]
      simp [List.mem_append, or_assoc]

theorem mem_firstOccurrenceOrder (keys : List String) (x : String) :
    x ∈ firstOccurrenceOrder keys ↔ x ∈ keys := by
  unfold firstOccurrenceOrder
  rw [mem_foldl_firstOccurrence]
  simp

/-! ## Conversion lemmas -/

theorem blockToStep_Command (c : CommandConfig) (b : CodeBlock) (i : Nat) (t : TagConfig) :
    (blockToStep c b i t).Command = b.Content := rfl

theorem blockToStep_LineNumber (c : CommandConfig) (b : CodeBlock) (i : Nat) (t : TagConfig) :
    (blockToStep c b i t).LineNumber = b.LineNumber := rfl

theorem convertSteps_ok_map (c : CommandConfig) (t : TagConfig) (fp : String) :
    ∀ (blocks : List CodeBlock) (i : Nat) (steps : List TestStep),
      convertSteps c t fp blocks i = .ok steps →
      steps.map (fun st => (st.Command, st.LineNumber))
        = blocks.map (fun b => (b.Content, b.LineNumber)) := by
  intro blocks
  induction blocks with
  | nil =>
    intro i steps h
    rw [convertSteps] at h
    cases h
    rfl
  | cons b bs ih =>
    intro i steps h
    rw [convertSteps] at h
    cases hv : ValidateCommand b.Content c.BlockedPatterns with
    | some msg => rw [hv] at h; cases h
    | none =>
      rw [hv] at h
      cases hrest : convertSteps c t fp bs (i + 1) with
      | error e => rw [hrest] at h; cases h
      | ok steps' =>
        rw [hrest] at h
        cases h
        simp only [List.map_cons, blockToStep_Command, blockToStep_LineNumber]
        rw [ih (i + 1) steps' hrest]

theorem convertSteps_ok_validate (c : CommandConfig) (t : TagConfig) (fp : String) :
    ∀ (blocks : List CodeBlock) (i : Nat) (steps : List TestStep),
      convertSteps c t fp blocks i = .ok steps →
      ∀ b ∈ blocks, ValidateCommand b.Content c.BlockedPatterns = none := by
  intro blocks
  induction blocks with
  | nil => intro i steps _ b hb; cases hb
  | cons b bs ih =>
    intro i steps h b' hb'
    rw [convertSteps] at h
    cases hv : ValidateCommand b.Content c.BlockedPatterns with
    | some msg => rw [hv] at h; cases h
    | none =>
      rw [hv] at h
      cases hrest : convertSteps c t fp bs (i + 1) with
      | error e => rw [hrest] at h; cases h
      | ok steps' =>
        rcases List.mem_cons.1 hb' with rfl | hmem
        · exact hv
        · exact ih (i + 1) steps' hrest b' hmem

theorem convertSteps_error (c : CommandConfig) (t : TagConfig) (fp : String) :
    ∀ (blocks : List CodeBlock) (i : Nat) (e : DocSyncerError),
      convertSteps c t fp blocks i = .error e →
      ∃ b ∈ blocks, e.Phase = "convert" ∧ e.File = fp ∧ e.LineNumber = b.LineNumber
        ∧ ValidateCommand b.Content c.BlockedPatterns = some e.Message := by
  intro blocks
  induction blocks with
  | nil => intro i e h; rw [convertSteps] at h; cases h
  | cons b bs ih =>
    intro i e h
    rw [convertSteps] at h
    cases hv : ValidateCommand b.Content c.BlockedPatterns with
    | some msg =>
      rw [hv] at h
      cases h
      exact ⟨b, List.mem_cons_self b bs, rfl, rfl, rfl, hv⟩
    | none =>
      rw [hv] at h
      cases hrest : convertSteps c t fp bs (i + 1) with
      | error eInner =>
        rw [hrest] at h
        obtain ⟨b', hb', hs⟩ := ih (i + 1) eInner hrest
        injection h with he
        subst he
        exact ⟨b', List.mem_cons_of_mem b hb', hs⟩
      | ok steps' => rw [hrest] at h; cases h

theorem convertGroups_ok (c : CommandConfig) (t : TagConfig) (doc : ParsedDocument)
    (d cb ftn : String) (gb : List (String × List CodeBlock)) :
    ∀ (order : List String) (specs : List TestSpec),
      convertGroups c t doc d cb ftn gb order = .ok specs →
      List.Forall₂
        (fun (spec : TestSpec) (g : String) =>
          spec.Steps.map (fun st => (st.Command, st.LineNumber))
            = (lookupGroup gb g).map (fun b => (b.Content, b.LineNumber)))
        specs order := by
  intro order
  induction order with
  | nil =>
    intro specs h
    rw [convertGroups] at h
    cases h
    exact List.Forall₂.nil
  | cons g gs ih =>
    intro specs h
    rw [convertGroups] at h
    cases hsteps : convertSteps c t doc.FilePath (lookupGroup gb g) 0 with
    | error e => rw [hsteps] at h; cases h
    | ok steps =>
      rw [hsteps] at h
      cases hrest : convertGroups c t doc d cb ftn gb gs with
      | error e => rw [hrest] at h; cases h
      | ok rest =>
        rw [hrest] at h
        cases h
        exact List.Forall₂.cons (convertSteps_ok_map c t doc.FilePath _ 0 steps hsteps)
          (ih rest hrest)

theorem convertGroups_ok_validate (c : CommandConfig) (t : TagConfig) (doc : ParsedDocument)
    (d cb ftn : String) (gb : List (String × List CodeBlock)) :
    ∀ (order : List String) (specs : List TestSpec),
      convertGroups c t doc d cb ftn gb order = .ok specs →
      ∀ g ∈ order, ∀ b ∈ lookupGroup gb g,
        ValidateCommand b.Content c.BlockedPatterns = none := by
  intro order
  induction order with
  | nil => intro specs _ g hg; cases hg
  | cons g gs ih =>
    intro specs h g' hg' b hb
    rw [convertGroups] at h
    cases hsteps : convertSteps c t doc.FilePath (lookupGroup gb g) 0 with
    | error e => rw [hsteps] at h; cases h
    | ok steps =>
      rw [hsteps] at h
      cases hrest : convertGroups c t doc d cb ftn gb gs with
      | error e => rw [hrest] at h; cases h
      | ok rest =>
        rcases List.mem_cons.1 hg' with rfl | hmem
        · exact convertSteps_ok_validate c t doc.FilePath _ 0 steps hsteps b hb
        · exact ih rest hrest g' hmem b hb

theorem convertGroups_error (c : CommandConfig) (t : TagConfig) (doc : ParsedDocument)
    (d cb ftn : String) (gb : List (String × List CodeBlock)) :
    ∀ (order : List String) (e : DocSyncerError),
      convertGroups c t doc d cb ftn gb order = .error e →
      ∃ g ∈ order, ∃ b ∈ lookupGroup gb g,
        e.Phase = "convert" ∧ e.File = doc.FilePath ∧ e.LineNumber = b.LineNumber
          ∧ ValidateCommand b.Content c.BlockedPatterns = some e.Message := by
  intro order
  induction order with
  | nil => intro e h; rw [convertGroups] at h; cases h
  | cons g gs ih =>
    intro e h
    rw [convertGroups] at h
    cases hsteps : convertSteps c t doc.FilePath (lookupGroup gb g) 0 with
    | error eInner =>
      rw [hsteps] at h
      obtain ⟨b, hb, hs⟩ := convertSteps_error c t doc.FilePath _ 0 eInner hsteps
      injection h with he
      subst he
      exact ⟨g, List.mem_cons_self g gs, b, hb, hs⟩
    | ok steps =>
      rw [hsteps] at h
      cases hrest : convertGroups c t doc d cb ftn gb gs with
      | error eInner =>
        rw [hrest] at h
        obtain ⟨g', hg', b, hb, hs⟩ := ih eInner hrest
        injection h with he
        subst he
        exact ⟨g', List.mem_cons_of_mem g hg', b, hb, hs⟩
      | ok rest => rw [hrest] at h; cases h

theorem convert_ok_validate (c : CommandConfig) (doc : ParsedDocument) (t : TagConfig)
    (specs : List TestSpec) (h : Convert c doc t = .ok specs) :
    ∀ b ∈ doc.Blocks, ValidateCommand b.Content c.BlockedPatterns = none := by
  intro b hb
  rw [Convert] at h
  by_cases hlen : doc.Blocks.length = 0
  · rw [List.length_eq_zero] at hlen
    rw [hlen] at hb
    cases hb
  · rw [if_neg hlen] at h
    refine convertGroups_ok_validate c t doc _ _ _ _ _ specs h b.TestGroup ?_ b ?_
    · rw [groupByTestGroup_order, mem_firstOccurrenceOrder]
      exact List.mem_map_of_mem _ hb
    · rw [groupByTestGroup_lookup, List.mem_filter]
      exact ⟨hb, by simp⟩

theorem convert_error_located (c : CommandConfig) (doc : ParsedDocument) (t : TagConfig)
    (e : DocSyncerError) (h : Convert c doc t = .error e) :
    e.Phase = "convert" ∧ e.File = doc.FilePath
      ∧ ∃ b2 ∈ doc.Blocks, e.LineNumber = b2.LineNumber
          ∧ ValidateCommand b2.Content c.BlockedPatterns = some e.Message := by
  rw [Convert] at h
  by_cases hlen : doc.Blocks.length = 0
  · rw [if_pos hlen] at h
    cases h
  · rw [if_neg hlen] at h
    obtain ⟨g, _, b2, hb2, hph, hf, hline, hval⟩ :=
      convertGroups_error _ _ _ _ _ _ _ _ e h
    rw [groupByTestGroup_lookup] at hb2
    exact ⟨hph, hf, b2, (List.mem_filter.1 hb2).1, hline, hval⟩

/-! ## Claim theorems: the converter -/

/-- **C4.**  `ValidateCommand` errors exactly when some blocked
substring occurs in the raw command text, the error message names the
offending pattern, and any failing Content Unit aborts conversion of
the whole document with a located error (no Test Specifications are
returned). -/
theorem validation_blocks_and_aborts :
    (∀ cmd pats, (ValidateCommand cmd pats).isSome = true
        ↔ ∃ p ∈ pats, goContains cmd p = true)
    ∧ (∀ cmd pats msg, ValidateCommand cmd pats = some msg →
        ∃ p ∈ pats, goContains cmd p = true ∧ msg = blockedMessage p
          ∧ goContains msg (goQuote p) = true)
    ∧ (∀ c doc t b, b ∈ doc.Blocks →
        (ValidateCommand b.Content c.BlockedPatterns).isSome = true →
        ∃ e, Convert c doc t = .error e ∧ e.Phase = "convert" ∧ e.File = doc.FilePath
          ∧ ∃ b2 ∈ doc.Blocks, e.LineNumber = b2.LineNumber
              ∧ ValidateCommand b2.Content c.BlockedPatterns = some e.Message) := by
  refine ⟨fun cmd pats => ?_, fun cmd pats msg h => ?_, fun c doc t b hb hsome => ?_⟩
  · unfold ValidateCommand
    rw [show (Option.map blockedMessage (pats.find? (fun p => goContains cmd p))).isSome
          = (pats.find? (fun p => goContains cmd p)).isSome from by
        cases pats.find? (fun p => goContains cmd p) <;> rfl]
    exact List.find?_isSome
  · unfold ValidateCommand at h
    cases hfind : pats.find? (fun p => goContains cmd p) with
    | none => rw [hfind] at h; cases h
    | some p =>
      rw [hfind] at h
      injection h with hmsg
      refine ⟨p, List.mem_of_find?_eq_some hfind, List.find?_some hfind, hmsg.symm, ?_⟩
      rw [← hmsg]
      exact goContains_of_sub
        ⟨("command blocked by security policy: contains " : String).data,
         (" — if this is intentional, remove it from commands.blocked_patterns in docsyncer.yaml" : String).data,
         by simp [blockedMessage, String.data_append, List.append_assoc]⟩
  · cases hconv : Convert c doc t with
    | ok specs =>
      have := convert_ok_validate c doc t specs hconv b hb
      rw [this] at hsome
      cases hsome
    | error e =>
      obtain ⟨hph, hf, hloc⟩ := convert_error_located c doc t e hconv
      exact ⟨e, rfl, hph, hf, hloc⟩

/-- A document containing a blocked command, for the C4 witness. -/
def blockedDoc : ParsedDocument :=
  ⟨"t.md", "markdown",
    [⟨"go-e2e-step", "echo ok", 1, [], "", "", "", ""⟩,
     ⟨"go-e2e-step", "rm -rf / now", 5, [], "", "", "", ""⟩],
    [], []⟩

/-- Closed witness for the hypotheses of
`validation_blocks_and_aborts`. -/
theorem validation_blocks_and_aborts_witness :
    ∃ e, Convert sampleCmdConfig blockedDoc sampleTagConfig = .error e
      ∧ e.Phase = "convert" ∧ e.File = blockedDoc.FilePath
      ∧ ∃ b2 ∈ blockedDoc.Blocks, e.LineNumber = b2.LineNumber
          ∧ ValidateCommand b2.Content sampleCmdConfig.BlockedPatterns = some e.Message :=
  validation_blocks_and_aborts.2.2 sampleCmdConfig blockedDoc sampleTagConfig
    ⟨"go-e2e-step", "rm -rf / now", 5, [], "", "", "", ""⟩
    (by decide) (by decide)

/-- **C9.**  Test Steps inside each emitted Test Specification appear
in document order, and the Test Specifications themselves follow the
stable first-occurrence order of their grouping keys: a successful
`Convert` pairs the spec list one-to-one with the first-occurrence key
list, each spec's steps being exactly the document's blocks of that
key, in document order (commands and line numbers preserved). -/
theorem document_order_preserved :
    ∀ c doc t specs, Convert c doc t = .ok specs →
      List.Forall₂
        (fun (spec : TestSpec) (g : String) =>
          spec.Steps.map (fun st => (st.Command, st.LineNumber))
            = (doc.Blocks.filter (fun b => b.TestGroup == g)).map
                (fun b => (b.Content, b.LineNumber)))
        specs (firstOccurrenceOrder (doc.Blocks.map (·.TestGroup))) := by
  intro c doc t specs h
  rw [Convert] at h
  by_cases hlen : doc.Blocks.length = 0
  · rw [if_pos hlen] at h
    cases h
    rw [List.length_eq_zero] at hlen
    rw [hlen]
    exact List.Forall₂.nil
  · rw [if_neg hlen] at h
    have H := convertGroups_ok _ _ _ _ _ _ _ _ specs h
    rw [groupByTestGroup_order] at H
    refine List.Forall₂.imp ?_ H
    intro spec g hsg
    rwa [groupByTestGroup_lookup] at hsg

/-- A two-group document for the C9 witness. -/
def twoGroupDoc : ParsedDocument :=
  ⟨"multi.md", "markdown",
    [⟨"go-e2e-step", "echo s1", 1, [], "", "B", "", ""⟩,
     ⟨"go-e2e-step", "echo s2", 2, [], "", "A", "", ""⟩,
     ⟨"go-e2e-step", "echo s3", 3, [], "", "B", "", ""⟩],
    [⟨1, "T", 1⟩], []⟩

/-- Closed witness for the hypothesis of `document_order_preserved`. -/
theorem document_order_preserved_witness :
    ∃ specs, Convert sampleCmdConfig twoGroupDoc sampleTagConfig = .ok specs
      ∧ List.Forall₂
          (fun (spec : TestSpec) (g : String) =>
            spec.Steps.map (fun st => (st.Command, st.LineNumber))
              = (twoGroupDoc.Blocks.filter (fun b => b.TestGroup == g)).map
                  (fun b => (b.Content, b.LineNumber)))
          specs (firstOccurrenceOrder (twoGroupDoc.Blocks.map (·.TestGroup))) := by
  refine ⟨(Convert sampleCmdConfig twoGroupDoc sampleTagConfig).toOption.getD [], rfl, ?_⟩
  exact document_order_preserved sampleCmdConfig twoGroupDoc sampleTagConfig _ rfl

theorem autoStepNameDefault_spec :
    ∀ f : String, (autoStepNameDefault f).data.length ≤ 50 ∨ autoStepNameDefault f = f := by
  intro f
  unfold autoStepNameDefault
  by_cases h : f.data.length > 50
  · rw [if_pos h]
    left
    simp
  · rw [if_neg h]
    right
    rfl

/-- **C6** (counterexample).  The claim says an unparseable
expected-exit-code attribute falls back to the configured default for
*every* configured default.  With default 5 and attribute value
`"abc"`, `blockToStep` instead leaves the Go zero value 0. -/
theorem exit_parse_failure_counterexample :
    (blockToStep exitFiveConfig badExitBlock 0 sampleTagConfig).ExpectedExit = 0
    ∧ exitFiveConfig.DefaultExpectedExitCode = 5
    ∧ ((0 : Int) ≠ 5) := by
  refine ⟨by decide, rfl, by decide⟩

/-- **C6** (amended).  Attribute-resolution behavior of the expected
exit code in `blockToStep`: when the attribute is absent the configured
default is used; when it is present but fails integer parsing the step
gets exit code 0 (Go's zero value — which coincides with the default
only when the default is 0), and no error is raised (the function is
total); when it parses, the parsed value is used. -/
theorem exit_code_fallback_behavior :
    ∀ (c : CommandConfig) (t : TagConfig) (block : CodeBlock) (index : Nat),
      (resolveAttribute block.Attributes (aliasKeys t "expected_exit_code") = "" →
          (blockToStep c block index t).ExpectedExit = c.DefaultExpectedExitCode)
      ∧ (∀ s, resolveAttribute block.Attributes (aliasKeys t "expected_exit_code") = s →
          s ≠ "" → goAtoi s = none →
          (blockToStep c block index t).ExpectedExit = 0)
      ∧ (∀ s code, resolveAttribute block.Attributes (aliasKeys t "expected_exit_code") = s →
          s ≠ "" → goAtoi s = some code →
          (blockToStep c block index t).ExpectedExit = code) := by
  intro c t block index
  refine ⟨fun h => ?_, fun s hs hne hnone => ?_, fun s code hs hne hsome => ?_⟩
  · simp [blockToStep, h]
  · subst hs
    simp [blockToStep, hne, hnone]
  · subst hs
    simp [blockToStep, hne, hsome]

/-- Closed witness for the hypotheses of
`exit_code_fallback_behavior`. -/
theorem exit_code_fallback_behavior_witness :
    (blockToStep exitFiveConfig badExitBlock 0 sampleTagConfig).ExpectedExit = 0 :=
  (exit_code_fallback_behavior exitFiveConfig sampleTagConfig badExitBlock 0).2.1
    "abc" (by decide) (by decide) (by decide)

/-- **C8** (counterexample).  The claim maps all four known verbs to
`"<verb> <first-argument>"`; the code maps `curl` to the fixed string
`"curl request"` instead. -/
theorem curl_step_name_counterexample :
    autoStepName "curl https://example.com" 0 = "curl request"
    ∧ "curl request" ≠ "curl https://example.com" := by
  exact ⟨by decide, by decide⟩

/-- **C8** (amended).  Step-name derivation from the command's first
line: `kubectl` / `helm` / `docker` followed by an argument map to
`"<verb> <first-argument>"`; `curl` maps to the fixed name
`"curl request"` (with or without arguments); an empty first line gives
the index placeholder; every other verb — including the three
argument-taking verbs when no argument follows — falls back to the
first line truncated to 50 bytes. -/
theorem auto_step_name_resolution :
    ∀ (command : String) (index : Nat),
      (goFields (commandFirstLine command) = [] →
        autoStepName command index = "Step " ++ toString (index + 1))
      ∧ (∀ v a rest, goFields (commandFirstLine command) = v :: a :: rest →
          (v = "kubectl" ∨ v = "helm" ∨ v = "docker") →
          autoStepName command index = v ++ " " ++ a)
      ∧ (∀ rest, goFields (commandFirstLine command) = "curl" :: rest →
          autoStepName command index = "curl request")
      ∧ (∀ v rest, goFields (commandFirstLine command) = v :: rest →
          v ≠ "kubectl" → v ≠ "helm" → v ≠ "docker" → v ≠ "curl" →
          autoStepName command index = autoStepNameDefault (commandFirstLine command))
      ∧ (∀ v, goFields (commandFirstLine command) = [v] → v ≠ "curl" →
          autoStepName command index = autoStepNameDefault (commandFirstLine command))
      ∧ (∀ f : String, (autoStepNameDefault f).data.length ≤ 50 ∨ autoStepNameDefault f = f) := by
  intro command index
  cases hl : goSplitChar (goTrimSpace command) '\n' with
  | nil =>
    have hcf : commandFirstLine command = "" := by rw [commandFirstLine, hl]
    have hauto : autoStepName command index = "Step " ++ toString (index + 1) := by
      rw [autoStepName, hl]
    refine ⟨fun _ => hauto, ?_, ?_, ?_, ?_, autoStepNameDefault_spec⟩
    · intro v a rest hf
      rw [hcf] at hf
      cases hf
    · intro rest hf
      rw [hcf] at hf
      cases hf
    · intro v rest hf
      rw [hcf] at hf
      cases hf
    · intro v hf
      rw [hcf] at hf
      cases hf
  | cons l ls =>
    have hcf : commandFirstLine command = goTrimSpace l := by rw [commandFirstLine, hl]
    rw [hcf]
    have hauto : autoStepName command index =
        (match goFields (goTrimSpace l) with
         | [] => "Step " ++ toString (index + 1)
         | cmdWord :: args =>
           match args with
           | arg :: _ =>
             if cmdWord == "kubectl" then "kubectl " ++ arg
             else if cmdWord == "helm" then "helm " ++ arg
             else if cmdWord == "docker" then "docker " ++ arg
             else if cmdWord == "curl" then "curl request"
             else autoStepNameDefault (goTrimSpace l)
           | [] =>
             if cmdWord == "curl" then "curl request"
             else autoStepNameDefault (goTrimSpace l)) := by
      rw [autoStepName, hl]
    refine ⟨fun hf => ?_, fun v a rest hf hv => ?_, fun rest hf => ?_,
      fun v rest hf h1 h2 h3 h4 => ?_, fun v hf hv => ?_, autoStepNameDefault_spec⟩
    · rw [hauto, hf]
    · rw [hauto, hf]
      rcases hv with rfl | rfl | rfl <;> simp
    · rw [hauto, hf]
      cases rest <;> simp
    · rw [hauto, hf]
      cases rest with
      | nil => simp [beq_iff_eq, h1, h2, h3, h4]
      | cons a r => simp [beq_iff_eq, h1, h2, h3, h4]
    · rw [hauto, hf]
      simp [beq_iff_eq, hv]

/-- Closed witness for the hypotheses of
`auto_step_name_resolution`. -/
theorem auto_step_name_resolution_witness :
    autoStepName "kubectl get pods" 7 = "kubectl " ++ "get" :=
  (auto_step_name_resolution "kubectl get pods" 7).2.1 "kubectl" "get" ["pods"]
    (by decide) (Or.inl rfl)

/-- **C7.**  Every Test Specification emitted by the (spec-modelled)
current converter resolves its test name by the precedence Step Group
key (when non-empty) → Test Unit key (when non-empty) → document
filename without extension; the witnessing Step Group key is tied to
the spec's actual content: its steps are exactly the document's blocks
carrying that (Test Unit, Step Group) key pair, in order. -/
theorem test_name_precedence :
    ∀ (c : CommandConfig) (doc : ParsedDocument) (t : TagConfig) (spec : TestSpec),
      spec ∈ ConvertGrouped c doc t →
      ∃ sg, spec.TestName
          = (if sg ≠ "" then sg
             else if spec.TestFile ≠ "" then spec.TestFile
             else fileTestName doc)
        ∧ spec.Steps.map (fun st => st.Command)
            = ((doc.Blocks.filter (fun b => b.TestFile == spec.TestFile)).filter
                (fun b => b.StepGroup == sg)).map (·.Content) := by
  intro c doc t spec hmem
  unfold ConvertGrouped at hmem
  rw [List.mem_flatMap] at hmem
  obtain ⟨tu, htu, hspec⟩ := hmem
  rw [List.mem_map] at hspec
  obtain ⟨sg, hsg, rfl⟩ := hspec
  refine ⟨sg, rfl, ?_⟩
  show (((doc.Blocks.filter (fun b => b.TestFile == tu)).filter
      (fun b => b.StepGroup == sg)).enum.map
        (fun ib => blockToStep c ib.2 ib.1 t)).map (fun st => st.Command) = _
  rw [List.map_map]
  have hfun : ((fun st : TestStep => st.Command) ∘ fun ib : Nat × CodeBlock =>
      blockToStep c ib.2 ib.1 t) = (fun b : CodeBlock => b.Content) ∘ Prod.snd := by
    funext ib
    rfl
  rw [hfun, ← List.map_map, List.enum_map_snd]

/-- A two-unit, marker-grouped document for the C7 witness. -/
def markedDoc : ParsedDocument :=
  ⟨"deploy.md", "markdown",
    [⟨"go-e2e-step", "echo a", 1, [], "", "", "Infra", "Setup"⟩,
     ⟨"go-e2e-step", "echo b", 2, [], "", "", "Infra", ""⟩],
    [], []⟩

/-- Closed witness for the hypothesis of `test_name_precedence`. -/
theorem test_name_precedence_witness :
    ∃ sg, ((ConvertGrouped sampleCmdConfig markedDoc sampleTagConfig).headD
        ⟨"", "", "", "", "", [], "", ""⟩).TestName
        = (if sg ≠ "" then sg
           else if ((ConvertGrouped sampleCmdConfig markedDoc sampleTagConfig).headD
              ⟨"", "", "", "", "", [], "", ""⟩).TestFile ≠ "" then
             ((ConvertGrouped sampleCmdConfig markedDoc sampleTagConfig).headD
              ⟨"", "", "", "", "", [], "", ""⟩).TestFile
           else fileTestName markedDoc)
      ∧ ((ConvertGrouped sampleCmdConfig markedDoc sampleTagConfig).headD
          ⟨"", "", "", "", "", [], "", ""⟩).Steps.map (fun st => st.Command)
          = ((markedDoc.Blocks.filter (fun b => b.TestFile ==
              ((ConvertGrouped sampleCmdConfig markedDoc sampleTagConfig).headD
                ⟨"", "", "", "", "", [], "", ""⟩).TestFile)).filter
              (fun b => b.StepGroup == sg)).map (·.Content) :=
  test_name_precedence sampleCmdConfig markedDoc sampleTagConfig _ (by decide)

/-! ## The cross-format contract: factorization through the cursor machine -/

theorem machineBlocks_append (evs1 evs2 : List ExtractEvent) (cursor : String × String) :
    machineBlocks (evs1 ++ evs2) cursor
      = machineBlocks evs1 cursor ++ machineBlocks evs2 (evs1.foldl markerStep cursor) := by
  induction evs1 generalizing cursor with
  | nil => simp [machineBlocks]
  | cons e evs ih =>
    cases e with
    | block tag attrs =>
      rw [List.cons_append,
        show machineBlocks (ExtractEvent.block tag attrs :: (evs ++ evs2)) cursor
          = (tag, attrs, cursor.1, cursor.2) :: machineBlocks (evs ++ evs2) cursor from rfl,
        ih]
      rfl
    | testStart name =>
      rw [List.cons_append,
        show machineBlocks (ExtractEvent.testStart name :: (evs ++ evs2)) cursor
          = machineBlocks (evs ++ evs2) (markerStep cursor (.testStart name)) from rfl,
        ih]
      rfl
    | testEnd =>
      rw [List.cons_append,
        show machineBlocks (ExtractEvent.testEnd :: (evs ++ evs2)) cursor
          = machineBlocks (evs ++ evs2) (markerStep cursor .testEnd) from rfl,
        ih]
      rfl
    | stepStart name =>
      rw [List.cons_append,
        show machineBlocks (ExtractEvent.stepStart name :: (evs ++ evs2)) cursor
          = machineBlocks (evs ++ evs2) (markerStep cursor (.stepStart name)) from rfl,
        ih]
      rfl
    | stepEnd =>
      rw [List.cons_append,
        show machineBlocks (ExtractEvent.stepEnd :: (evs ++ evs2)) cursor
          = machineBlocks (evs ++ evs2) (markerStep cursor .stepEnd) from rfl,
        ih]
      rfl

theorem mdStep_proj (tags : List String) (st : WalkState) (node : MdNode) :
    structProj (mdStep tags st node).blocks
        = structProj st.blocks
          ++ machineBlocks (mdNodeEvents tags node)
              (st.currentTestFile, st.currentStepGroup)
      ∧ ((mdStep tags st node).currentTestFile, (mdStep tags st node).currentStepGroup)
        = (mdNodeEvents tags node).foldl markerStep
            (st.currentTestFile, st.currentStepGroup) := by
  cases node with
  | heading level text line => simp [mdStep, mdNodeEvents, machineBlocks]
  | other => simp [mdStep, mdNodeEvents, machineBlocks]
  | fenced info content line =>
    by_cases hcap : (tags.contains ((assocLookup (parseInfoString info) "_tag").getD "")
        || tags.contains (mdLanguage info)) = true
    · simp only [mdStep, mdNodeEvents, hcap, if_true]
      constructor
      · simp [structProj, machineBlocks]
      · simp [machineBlocks, markerStep]
    · simp only [mdStep, mdNodeEvents, hcap]
      simp [machineBlocks]
  | htmlBlock rawText =>
    simp only [mdStep, mdNodeEvents]
    split_ifs <;> simp [machineBlocks, markerStep]

theorem mdWalk_factor (tags : List String) :
    ∀ (nodes : List MdNode) (st : WalkState),
      structProj ((nodes.foldl (mdStep tags) st)).blocks
        = structProj st.blocks
          ++ machineBlocks (mdEvents tags nodes)
              (st.currentTestFile, st.currentStepGroup) := by
  intro nodes
  induction nodes with
  | nil => intro st; simp [mdEvents, machineBlocks]
  | cons n ns ih =>
    intro st
    rw [List.foldl_cons, ih]
    have hev : mdEvents tags (n :: ns) = mdNodeEvents tags n ++ mdEvents tags ns := by
      simp [mdEvents]
    rw [hev, machineBlocks_append, (mdStep_proj tags st n).1, (mdStep_proj tags st n).2,
      List.append_assoc]

theorem markdownParse_factor (fp : String) (nodes : List MdNode) (tags : List String) :
    structProj (MarkdownParse fp nodes tags).Blocks
      = machineBlocks (mdEvents tags nodes) ("", "") := by
  have h : (MarkdownParse fp nodes tags).Blocks
      = (nodes.foldl (mdStep tags) WalkState.init).blocks := rfl
  rw [h, mdWalk_factor]
  rfl

theorem adocScanGo_factor (tags : List String) :
    ∀ (fuel : Nat) (lines : List String) (i : Nat) (st : WalkState),
      structProj (adocScanGo tags fuel lines i st).blocks
        = structProj st.blocks
          ++ machineBlocks (adocEventsGo tags fuel lines)
              (st.currentTestFile, st.currentStepGroup) := by
  intro fuel
  induction fuel with
  | zero =>
    intro lines i st
    show structProj st.blocks = _
    simp [show adocEventsGo tags 0 lines = [] from rfl, machineBlocks]
  | succ fuel ih =>
    intro lines i st
    cases lines with
    | nil =>
      show structProj st.blocks = _
      simp [show adocEventsGo tags (fuel + 1) [] = [] from rfl, machineBlocks]
    | cons line rest =>
      rw [adocScanGo, adocEventsGo]
      by_cases h1 : goStartsWith (goTrimSpace line) "// test-start:" = true
      · simp only [h1, if_true]
        rw [ih rest (i + 1) _]
        simp [machineBlocks, markerStep]
      · simp only [h1, Bool.false_eq_true, if_false]
        by_cases h2 : goStartsWith (goTrimSpace line) "// test-end" = true
        · simp only [h2, if_true]
          rw [ih rest (i + 1) _]
          simp [machineBlocks, markerStep]
        · simp only [h2, Bool.false_eq_true, if_false]
          by_cases h3 : goStartsWith (goTrimSpace line) "// test-step-start:" = true
          · simp only [h3, if_true]
            rw [ih rest (i + 1) _]
            simp [machineBlocks, markerStep]
          · simp only [h3, Bool.false_eq_true, if_false]
            by_cases h4 : goStartsWith (goTrimSpace line) "// test-step-end" = true
            · simp only [h4, if_true]
              rw [ih rest (i + 1) _]
              simp [machineBlocks, markerStep]
            · simp only [h4, Bool.false_eq_true, if_false]
              cases hh : adocHeadingMatch line with
              | some lv =>
                simp only [hh]
                rw [ih rest (i + 1) _]
              | none =>
                simp only [hh]
                cases hs : adocSourceMatch line with
                | none =>
                  simp only [hs]
                  exact ih rest (i + 1) st
                | some m =>
                  obtain ⟨m1, m2⟩ := m
                  simp only [hs]
                  by_cases htag : tags.contains (goTrimSpace m1) = true
                  · rw [if_neg (not_not_intro htag), if_neg (not_not_intro htag)]
                    cases rest with
                    | nil =>
                      show structProj st.blocks = _
                      simp [machineBlocks]
                    | cons l2 rest2 =>
                      dsimp only
                      by_cases hdel : adocDelimMatch l2 = true
                      · rw [if_neg (not_not_intro hdel), if_neg (not_not_intro hdel)]
                        rw [ih _ _ _]
                        simp only [machineBlocks, structProj, List.map_append, List.map_cons,
                          List.map_nil, List.append_assoc]
                        rfl
                      · rw [if_pos hdel, if_pos hdel]
                        exact ih rest2 (i + 2) st
                  · rw [if_pos htag, if_pos htag]
                    exact ih rest (i + 1) st

theorem asciiDocParse_factor (fp content : String) (tags : List String) :
    structProj (AsciiDocParse fp content tags).Blocks
      = machineBlocks (adocEvents tags (goSplitChar content '\n')) ("", "") := by
  have h : (AsciiDocParse fp content tags).Blocks
      = (adocScanGo tags (goSplitChar content '\n').length (goSplitChar content '\n')
          0 WalkState.init).blocks := rfl
  rw [h, adocScanGo_factor]
  rfl

/-- **C5.**  The cross-format contract: the two extractors drive the
same Test Unit / Step Group cursor machine, so any Markdown node
sequence and AsciiDoc document with equivalent marker placement, tagged
blocks and attributes — formalized as equality of the extraction event
streams — produce structurally equivalent Content Unit sequences: same
tags, same attribute maps, same Test Unit and Step Group keys, in the
same relative order. -/
theorem extractor_equivalence :
    ∀ (fpMd fpAd : String) (nodes : List MdNode) (content : String) (tags : List String),
      mdEvents tags nodes = adocEvents tags (goSplitChar content '\n') →
      structProj (MarkdownParse fpMd nodes tags).Blocks
        = structProj (AsciiDocParse fpAd content tags).Blocks := by
  intro fpMd fpAd nodes content tags h
  rw [markdownParse_factor, asciiDocParse_factor, h]

/-- The Markdown witness document for C5. -/
def c5Nodes : List MdNode :=
  [.heading 1 "Deployment Guide" 1,
   .htmlBlock "<!-- test-start: Infra -->",
   .fenced "go-e2e-step timeout=60s" "kubectl get pods\n" 5,
   .htmlBlock "<!-- test-end -->"]

/-- The AsciiDoc witness document for C5, with equivalent marker
placement. -/
def c5Adoc : String :=
  "== Deployment Guide\n// test-start: Infra\n[source,go-e2e-step,timeout=\"60s\"]\n----\nkubectl get pods\n----\n// test-end\n"

/-- Closed witness for the hypothesis of `extractor_equivalence`. -/
theorem extractor_equivalence_witness :
    mdEvents ["go-e2e-step"] c5Nodes = adocEvents ["go-e2e-step"] (goSplitChar c5Adoc '\n')
    ∧ structProj (MarkdownParse "g.md" c5Nodes ["go-e2e-step"]).Blocks
        = structProj (AsciiDocParse "g.adoc" c5Adoc ["go-e2e-step"]).Blocks :=
  ⟨by decide, extractor_equivalence "g.md" "g.adoc" c5Nodes c5Adoc ["go-e2e-step"] (by decide)⟩

end DocSyncer
